import Mathlib

/- Verification development for the ESP-01/ESP-01S raw 802.11 radio firmware
   (UART <-> WiFi byte bridge).  The definitions below are a shallow embedding
   of the C sources: `uart.c` (ring buffers), `user_main.c`
   (`main_timer_callback`, the UART->WiFi packet reassembler) and `wifi_raw.c`
   (`wifi_raw_send`, `build_80211_header`, `wifi_promiscuous_rx_cb`).
   Machine integers are modelled as `Nat` with explicit wrap-around (`% 2^16`
   for `uint16_t` arithmetic) where the C code can overflow; byte values are
   `Nat`s that the source guarantees to be `< 256` (they come from `uint8_t`
   reads). -/

set_option maxRecDepth 8000

namespace EspRadio

/- ==================================================
   Constants from user_config.h
   ================================================== -/

/-- `MAX_PACKET_SIZE` (user_config.h): maximum payload size in bytes. -/
def MAX_PACKET_SIZE : Nat := 256

/-- `UART_RX_BUFFER_SIZE` (user_config.h): power of two. -/
def UART_RX_BUFFER_SIZE : Nat := 1024

/-- `UART_TX_BUFFER_SIZE` (user_config.h): power of two. -/
def UART_TX_BUFFER_SIZE : Nat := 1024

/-- `IEEE80211_HEADER_SIZE` (user_config.h): fixed 802.11 MAC header size. -/
def IEEE80211_HEADER_SIZE : Nat := 24

/-- `TX_FRAME_BUFFER_SIZE` (user_config.h): header + max payload. -/
def TX_FRAME_BUFFER_SIZE : Nat := IEEE80211_HEADER_SIZE + MAX_PACKET_SIZE

/-- `IEEE80211_FCTL_FTYPE` (user_config.h): frame type mask. -/
def IEEE80211_FCTL_FTYPE : Nat := 0x000C

/-- `IEEE80211_FCTL_MGMT` (user_config.h): management frame type. -/
def IEEE80211_FCTL_MGMT : Nat := 0x0000

/-- `IEEE80211_FC_PROBE_REQ` (user_config.h): probe request frame control. -/
def IEEE80211_FC_PROBE_REQ : Nat := 0x0040

/-- `CUSTOM_BSSID` (user_config.h): the 6-byte RX filter key. -/
def custom_bssid : List Nat := [0xAA, 0xBB, 0xCC, 0xDD, 0xEE, 0x00]

/-- `BROADCAST_MAC` (user_config.h): TX destination address. -/
def broadcast_mac : List Nat := [0xFF, 0xFF, 0xFF, 0xFF, 0xFF, 0xFF]

/-- Size of the ESP8266 SDK `struct RxControl` metadata block that precedes the
    802.11 header in a promiscuous-mode capture buffer (12 bytes of packed
    bitfields; the struct lives in the SDK's `user_interface.h`, not in this
    repository).  Only its value as a length offset matters here. -/
def sizeof_RxControl : Nat := 12

/- ==================================================
   Ring buffers (uart.c)

   Both ring buffers in uart.c have size 1024 and use the same
   index discipline: `head` is the write index, `tail` the read index,
   `RX_INCREMENT/TX_INCREMENT idx = (idx + 1) & (SIZE - 1)`, and the
   buffer is full when advancing `head` would make it equal `tail`
   (one slot is always kept free).  The cell array is modelled as a
   total function `Nat -> Nat`; only cells with index < 1024 are ever
   read or written. -/

/-- One UART ring buffer: cell array, write index (`head`), read index
    (`tail`) and the per-buffer overflow counter from uart.c. -/
structure RingState where
  buf : Nat → Nat
  head : Nat
  tail : Nat
  overflow : Nat

/-- `RX_INCREMENT` / `TX_INCREMENT` (uart.c): `((idx) + 1) & (SIZE - 1)`
    with `SIZE = 1024` for both buffers. -/
def RING_INCREMENT (idx : Nat) : Nat := (idx + 1) &&& (UART_RX_BUFFER_SIZE - 1)

/-- Well-formedness: both indices stay below the buffer size (true for the
    all-zero initial state and preserved by every operation). -/
def RingState.wf (st : RingState) : Prop :=
  st.head < 1024 ∧ st.tail < 1024

instance (st : RingState) : Decidable st.wf := by
  unfold RingState.wf; infer_instance

/-- Number of occupied slots, `(head - tail) mod 1024`; this is what
    `uart_rx_available` (uart.c) computes. -/
def RingState.occ (st : RingState) : Nat :=
  if st.head ≥ st.tail then st.head - st.tail
  else 1024 - st.tail + st.head

/-- `uart_rx_available` (uart.c). -/
def uart_rx_available (st : RingState) : Nat := st.occ

/-- Abstraction function: the FIFO content of the ring, read from `tail`
    towards `head`. -/
def RingState.queue (st : RingState) : List Nat :=
  (List.range st.occ).map (fun i => st.buf ((st.tail + i) % 1024))

/-- The state established by `uart_init` (uart.c): indices and statistics
    reset to zero (cell contents are irrelevant; zero here). -/
def uart_init : RingState := ⟨fun _ => 0, 0, 0, 0⟩

/-- `uart_write_bytes` (uart.c): append as many of `data` as fit, stopping
    (with a single overflow-counter increment) at the first full condition.
    Returns the new state and the accepted byte count (the C return value). -/
def uart_write_bytes (st : RingState) (data : List Nat) : RingState × Nat :=
  match data with
  | [] => (st, 0)
  | b :: rest =>
    let next_head := RING_INCREMENT st.head
    if next_head = st.tail then
      ({ st with overflow := st.overflow + 1 }, 0)
    else
      let st' : RingState :=
        { st with buf := Function.update st.buf st.head b, head := next_head }
      let r := uart_write_bytes st' rest
      (r.1, r.2 + 1)

/-- `uart_read_bytes` (uart.c): read up to `max_len` bytes from the ring.
    Returns the new state and the bytes read (the C code copies them out
    and returns their count). -/
def uart_read_bytes (st : RingState) (max_len : Nat) : RingState × List Nat :=
  match max_len with
  | 0 => (st, [])
  | n + 1 =>
    if st.tail = st.head then (st, [])
    else
      let b := st.buf st.tail
      let st' : RingState := { st with tail := RING_INCREMENT st.tail }
      let r := uart_read_bytes st' n
      (r.1, b :: r.2)

/-- The per-byte store loop of `uart0_rx_intr_handler` (uart.c): each byte
    taken from the hardware FIFO is stored if the ring is not full, else
    dropped with an overflow-counter increment (no early exit). -/
def uart0_rx_store (st : RingState) (data : List Nat) : RingState :=
  match data with
  | [] => st
  | b :: rest =>
    let next_head := RING_INCREMENT st.head
    if next_head ≠ st.tail then
      uart0_rx_store
        { st with buf := Function.update st.buf st.head b, head := next_head } rest
    else
      uart0_rx_store { st with overflow := st.overflow + 1 } rest

/- ==================================================
   Interleavings of ring buffer operations (for the FIFO law)
   ================================================== -/

/-- One public ring-buffer API call: a `uart_write_bytes` with the offered
    data, or a `uart_read_bytes` with the requested maximum. -/
inductive UartOp where
  | write (data : List Nat) : UartOp
  | read (maxLen : Nat) : UartOp

/-- Run an interleaving of ring-buffer calls.  Returns the final ring state,
    the concatenation of the bytes each write call accepted (the first
    `returned count` bytes of its argument, per the C return-value contract),
    and the concatenation of the bytes the read calls returned. -/
def runUartOps (st : RingState) : List UartOp → RingState × List Nat × List Nat
  | [] => (st, [], [])
  | (UartOp.write data) :: ops =>
    let r := uart_write_bytes st data
    let rest := runUartOps r.1 ops
    (rest.1, data.take r.2 ++ rest.2.1, rest.2.2)
  | (UartOp.read n) :: ops =>
    let r := uart_read_bytes st n
    let rest := runUartOps r.1 ops
    (rest.1, rest.2.1, r.2 ++ rest.2.2)

/-- The occupancy side condition of the FIFO law: before every write there is
    room for all offered bytes, so running occupancy never exceeds 1023
    (capacity minus the one reserved slot). -/
def opsFit (st : RingState) : List UartOp → Prop
  | [] => True
  | (UartOp.write data) :: ops =>
    st.occ + data.length ≤ 1023 ∧ opsFit (uart_write_bytes st data).1 ops
  | (UartOp.read n) :: ops => opsFit (uart_read_bytes st n).1 ops

instance opsFitDecidable : (st : RingState) → (ops : List UartOp) →
    Decidable (opsFit st ops)
  | _, [] => isTrue trivial
  | st, (UartOp.write data) :: ops =>
    have : Decidable (opsFit (uart_write_bytes st data).1 ops) :=
      opsFitDecidable _ ops
    inferInstanceAs (Decidable (_ ∧ _))
  | st, (UartOp.read n) :: ops => opsFitDecidable (uart_read_bytes st n).1 ops

/- ==================================================
   BridgeReassembler: main_timer_callback (user_main.c)
   ================================================== -/

/-- The static state of the UART->WiFi bridge inside `main_timer_callback`
    (user_main.c): the expected payload length from the header
    (`0` = waiting for a header), the accumulated byte count, and the live
    contents of `packet_buffer`.  `packet_buffer` here models exactly the
    first `pkt_received` cells of the C array (cells beyond `pkt_received`
    are dead: the C code overwrites them from offset `pkt_received` before
    ever reading them). -/
structure BridgeState where
  pkt_expected : Nat
  pkt_received : Nat
  packet_buffer : List Nat

/-- Bridge state at boot: waiting for a header with nothing accumulated. -/
def BRIDGE_INIT : BridgeState := ⟨0, 0, []⟩

/-- The UART->WiFi bridge block of `main_timer_callback` (user_main.c).
    Takes the persistent bridge state and the RX ring; returns the new bridge
    state, the new RX ring, and the list of payloads handed to
    `wifi_raw_send` during this tick (at most one).  The LED/heartbeat
    bookkeeping of the callback only drives debug output and is independent
    of the bridge, so it is not modelled. -/
def main_timer_callback (s : BridgeState) (rx : RingState) :
    BridgeState × RingState × List (List Nat) :=
  -- Waiting for the 2-byte length header
  let p1 : BridgeState × RingState :=
    if s.pkt_expected = 0 then
      if uart_rx_available rx ≥ 2 then
        let r := uart_read_bytes rx 2
        let len_bytes0 := r.2.getD 0 0
        let len_bytes1 := r.2.getD 1 0
        let e := (len_bytes0 <<< 8) ||| len_bytes1
        if e = 0 ∨ e > MAX_PACKET_SIZE then
          (⟨0, 0, []⟩, r.1)
        else
          (⟨e, 0, []⟩, r.1)
      else (s, rx)
    else (s, rx)
  let s1 := p1.1
  let rx1 := p1.2
  -- Accumulate payload bytes; transmit when complete
  if s1.pkt_expected > 0 then
    let remaining := s1.pkt_expected - s1.pkt_received
    let avail := uart_rx_available rx1
    let to_read := if avail < remaining then avail else remaining
    let r := uart_read_bytes rx1 to_read
    let s2 : BridgeState :=
      ⟨s1.pkt_expected, s1.pkt_received + r.2.length, s1.packet_buffer ++ r.2⟩
    if s2.pkt_received ≥ s2.pkt_expected then
      (⟨0, 0, []⟩, r.1, [s2.packet_buffer])
    else
      (s2, r.1, [])
  else
    (s1, rx1, [])

/-- Deliver the byte chunks one per tick: each chunk is stored into the RX
    ring by the UART ISR, then one `main_timer_callback` tick runs.  Returns
    the final bridge state, the final ring, and all payloads handed to
    `wifi_raw_send` across the run. -/
def runChunks (s : BridgeState) (rx : RingState) :
    List (List Nat) → BridgeState × RingState × List (List Nat)
  | [] => (s, rx, [])
  | c :: rest =>
    let rx1 := uart0_rx_store rx c
    let t := main_timer_callback s rx1
    let r := runChunks t.1 t.2.1 rest
    (r.1, r.2.1, t.2.2 ++ r.2.2)

/-- The big-endian length header of the bridge protocol
    `[LEN_HI][LEN_LO][payload...]` for a payload of length `L`. -/
def lenHeader (L : Nat) : List Nat := [L / 256, L % 256]

/-- The bridge/ring configurations reachable while one length-prefixed
    packet (`lenHeader L ++ payload`) streams in, indexed by the number `d`
    of stream bytes delivered so far: still waiting for the full header
    (undelivered header bytes buffered), accumulating (header consumed,
    `d - 2` payload bytes in `packet_buffer`, ring drained), or done (the
    packet was handed to `wifi_raw_send`, everything reset). -/
def bridgeInv (L : Nat) (payload : List Nat) (d : Nat) (b : BridgeState)
    (q : List Nat) : Prop :=
  (d < 2 ∧ b = BRIDGE_INIT ∧ q = (lenHeader L ++ payload).take d) ∨
  (2 ≤ d ∧ d < 2 + L ∧ b = ⟨L, d - 2, payload.take (d - 2)⟩ ∧ q = []) ∨
  (d = 2 + L ∧ b = BRIDGE_INIT ∧ q = [])

/- ==================================================
   802.11 TX: build_80211_header and wifi_raw_send (wifi_raw.c)
   ================================================== -/

/-- `struct ieee80211_hdr`: the fixed 24-byte 802.11 MAC header.  The three
    address fields are 6-byte lists; the two control fields are `uint16_t`
    values. -/
structure Ieee80211Hdr where
  frame_control : Nat
  duration_id : Nat
  addr1 : List Nat
  addr2 : List Nat
  addr3 : List Nat
  seq_ctrl : Nat

/-- `build_80211_header` (wifi_raw.c).  `mac` is the device MAC address that
    `wifi_get_macaddr` fills in.  Takes the current `tx_sequence` counter
    (a `uint16_t`, hence the `% 65536` on increment) and returns the header
    together with the post-increment counter:
    `seq_ctrl = (tx_sequence << 4) & 0xFFF0; tx_sequence++`. -/
def build_80211_header (mac : List Nat) (tx_sequence : Nat) :
    Ieee80211Hdr × Nat :=
  (⟨IEEE80211_FC_PROBE_REQ, 0, broadcast_mac, mac, custom_bssid,
    (tx_sequence <<< 4) &&& 0xFFF0⟩,
   (tx_sequence + 1) % 65536)

/-- Little-endian byte pair of a `uint16_t` value. -/
def u16le (x : Nat) : List Nat := [x % 256, x / 256 % 256]

/-- The 24 bytes the header struct occupies at the start of
    `tx_frame_buffer` (little-endian `uint16_t` fields, as on the ESP8266). -/
def hdrBytes (h : Ieee80211Hdr) : List Nat :=
  u16le h.frame_control ++ u16le h.duration_id ++
    h.addr1 ++ h.addr2 ++ h.addr3 ++ u16le h.seq_ctrl

/-- The mutable TX-side state of wifi_raw.c: the sequence counter, the
    `tx_ready` flag (`uint8_t`, 1 = idle) and the TX statistics. -/
structure WifiTxState where
  tx_sequence : Nat
  tx_ready : Nat
  tx_count : Nat
  tx_error_count : Nat

/-- TX state after `wifi_raw_init` (wifi_raw.c): counters and sequence
    reset, `tx_ready = 1`. -/
def WIFI_TX_INIT : WifiTxState := ⟨0, 1, 0, 0⟩

/-- `wifi_raw_send` (wifi_raw.c).  `raw_data = none` models a NULL pointer.
    `sendResult` is the value the SDK's `wifi_send_pkt_freedom` returns when
    (and only when) the function reaches it (0 = enqueued, nonzero = error).
    Returns the new state, the C return value, and the frame passed to
    `wifi_send_pkt_freedom` (`none` when no transmission was attempted). -/
def wifi_raw_send (mac : List Nat) (st : WifiTxState)
    (raw_data : Option (List Nat)) (sendResult : Int) :
    WifiTxState × Int × Option (List Nat) :=
  match raw_data with
  | none => ({ st with tx_error_count := st.tx_error_count + 1 }, -1, none)
  | some data =>
    if data.length = 0 ∨ data.length > MAX_PACKET_SIZE then
      ({ st with tx_error_count := st.tx_error_count + 1 }, -1, none)
    else if st.tx_ready = 0 then
      ({ st with tx_error_count := st.tx_error_count + 1 }, -1, none)
    else
      let b := build_80211_header mac st.tx_sequence
      let frame := hdrBytes b.1 ++ data
      let st1 : WifiTxState := ⟨b.2, 0, st.tx_count, st.tx_error_count⟩
      if sendResult = 0 then
        ({ st1 with tx_count := st1.tx_count + 1 }, 0, some frame)
      else
        (⟨st1.tx_sequence, 1, st1.tx_count, st1.tx_error_count + 1⟩,
         sendResult, some frame)

/-- `wifi_freedom_tx_cb` (wifi_raw.c): the SDK transmit-completion callback
    sets `tx_ready` back to 1 (the status argument is ignored). -/
def wifi_freedom_tx_cb (_status : Nat) (st : WifiTxState) : WifiTxState :=
  { st with tx_ready := 1 }

/- ==================================================
   802.11 RX: wifi_promiscuous_rx_cb (wifi_raw.c)
   ================================================== -/

/-- The fields of the SDK's `struct RxControl` metadata block that
    `wifi_promiscuous_rx_cb` reads: the modulation indicator (`sig_mode`,
    0 = legacy 802.11b/g) and the reported over-the-air frame length
    (`legacy_length`, a 12-bit unsigned bitfield). -/
structure RxControlData where
  sig_mode : Nat
  legacy_length : Nat

/-- A promiscuous-mode capture as the callback sees it: the metadata block,
    the captured byte count `len` (the callback's second argument), the
    802.11 header fields it inspects (`frame_control`, `addr3`), and the
    bytes in memory starting at header + 24 (of which it forwards
    `payload_len` many). -/
structure CapturedFrame where
  rx_ctrl : RxControlData
  len : Nat
  frame_control : Nat
  addr3 : List Nat
  payload : List Nat

/-- RX-side statistics of wifi_raw.c. -/
structure WifiRxState where
  rx_count : Nat
  rx_drop_count : Nat

/-- The `uint16_t` payload length `legacy_length - IEEE80211_HEADER_SIZE - 4`
    computed by `wifi_promiscuous_rx_cb`; the subtraction is done in `int`
    and converted to `uint16_t`, hence the wrap modulo 2^16 when
    `legacy_length < 28`. -/
def rxPayloadLen (legacy_length : Nat) : Nat :=
  (legacy_length + 65536 - (IEEE80211_HEADER_SIZE + 4)) % 65536

/-- `wifi_promiscuous_rx_cb` (wifi_raw.c): the four short-circuiting filter
    stages, then length-prefixed forwarding of the payload into the UART TX
    ring.  Returns the new statistics and the new TX ring. -/
def wifi_promiscuous_rx_cb (st : WifiRxState) (tx : RingState)
    (f : CapturedFrame) : WifiRxState × RingState :=
  if f.rx_ctrl.sig_mode ≠ 0 ∨ f.len < sizeof_RxControl + 28 then
    ({ st with rx_drop_count := st.rx_drop_count + 1 }, tx)
  else if f.frame_control &&& IEEE80211_FCTL_FTYPE ≠ IEEE80211_FCTL_MGMT then
    ({ st with rx_drop_count := st.rx_drop_count + 1 }, tx)
  else if f.addr3 ≠ custom_bssid then
    ({ st with rx_drop_count := st.rx_drop_count + 1 }, tx)
  else
    let payload_len := rxPayloadLen f.rx_ctrl.legacy_length
    if payload_len > MAX_PACKET_SIZE then
      ({ st with rx_drop_count := st.rx_drop_count + 1 }, tx)
    else
      let st' : WifiRxState := { st with rx_count := st.rx_count + 1 }
      let lenPrefixBytes : List Nat :=
        [(payload_len >>> 8) &&& 0xFF, payload_len &&& 0xFF]
      let tx1 := (uart_write_bytes tx lenPrefixBytes).1
      let tx2 := (uart_write_bytes tx1 (f.payload.take payload_len)).1
      (st', tx2)

/-- The 2-byte big-endian length prefix `[LEN_HI][LEN_LO]` the callback
    builds for a computed payload length (`(payload_len >> 8) & 0xFF`,
    `payload_len & 0xFF`). -/
def lenPrefixOf (payload_len : Nat) : List Nat :=
  [(payload_len >>> 8) &&& 0xFF, payload_len &&& 0xFF]

/-- Two consecutive `uart_write_bytes` calls on the same ring (as performed
    by the forwarding path of the callback). -/
def writeTwice (tx : RingState) (d1 d2 : List Nat) : RingState :=
  (uart_write_bytes (uart_write_bytes tx d1).1 d2).1

/-- The TX ring after `wifi_promiscuous_rx_cb` forwards an accepted frame:
    length prefix, then the first `payload_len` bytes after the header. -/
def rxForwardTx (tx : RingState) (f : CapturedFrame) : RingState :=
  writeTwice tx (lenPrefixOf (rxPayloadLen f.rx_ctrl.legacy_length))
    (f.payload.take (rxPayloadLen f.rx_ctrl.legacy_length))

/-- The acceptance predicate of the receive filter pipeline as implemented:
    legacy modulation, minimum captured length, management frame type,
    matching BSSID, and computed payload length at most `MAX_PACKET_SIZE`
    (note: a computed length of zero is accepted by the code). -/
def frameAccepted (f : CapturedFrame) : Prop :=
  f.rx_ctrl.sig_mode = 0 ∧ f.len ≥ sizeof_RxControl + 28 ∧
  f.frame_control &&& IEEE80211_FCTL_FTYPE = IEEE80211_FCTL_MGMT ∧
  f.addr3 = custom_bssid ∧
  rxPayloadLen f.rx_ctrl.legacy_length ≤ MAX_PACKET_SIZE

instance (f : CapturedFrame) : Decidable (frameAccepted f) := by
  unfold frameAccepted; infer_instance

/- ==================================================
   Ring buffer lemmas
   ================================================== -/

theorem RING_INCREMENT_eq (i : Nat) : RING_INCREMENT i = (i + 1) % 1024 := by
  have h : (1024 : Nat) - 1 = 2 ^ 10 - 1 := by norm_num
  simp only [RING_INCREMENT, UART_RX_BUFFER_SIZE, h,
    Nat.and_pow_two_sub_one_eq_mod]

theorem RingState.occ_le (st : RingState) (h : st.wf) : st.occ ≤ 1023 := by
  obtain ⟨h1, h2⟩ := h
  simp only [RingState.occ]
  split <;> omega

theorem RingState.queue_length (st : RingState) : st.queue.length = st.occ := by
  simp [RingState.queue]

/-- Effect of one iteration of the store loop shared by `uart_write_bytes`
    and `uart0_rx_intr_handler`: when the ring is not full, writing `b` at
    `head` and advancing `head` appends `b` to the FIFO content. -/
theorem ring_store_one (st : RingState) (b : Nat) (h : st.wf)
    (hfull : RING_INCREMENT st.head ≠ st.tail) :
    (RingState.mk (Function.update st.buf st.head b) (RING_INCREMENT st.head)
        st.tail st.overflow).queue = st.queue ++ [b] ∧
    (RingState.mk (Function.update st.buf st.head b) (RING_INCREMENT st.head)
        st.tail st.overflow).occ = st.occ + 1 ∧
    (RingState.mk (Function.update st.buf st.head b) (RING_INCREMENT st.head)
        st.tail st.overflow).wf := by
  obtain ⟨h1, h2⟩ := h
  rw [RING_INCREMENT_eq] at hfull ⊢
  have hocc : (RingState.mk (Function.update st.buf st.head b)
      ((st.head + 1) % 1024) st.tail st.overflow).occ = st.occ + 1 := by
    simp only [RingState.occ]
    split <;> split <;> omega
  refine ⟨?_, hocc, by constructor <;> simp only [RingState.wf] <;> omega⟩
  simp only [RingState.queue, hocc]
  rw [List.range_succ, List.map_append]
  congr 1
  · apply List.map_congr_left
    intro i hi
    rw [List.mem_range] at hi
    have hne : (st.tail + i) % 1024 ≠ st.head := by
      revert hi
      simp only [RingState.occ]
      split <;> (intro hi; omega)
    exact Function.update_noteq hne b st.buf
  · have heq : (st.tail + st.occ) % 1024 = st.head := by
      simp only [RingState.occ]
      split <;> omega
    simp only [List.map_cons, List.map_nil]
    rw [heq, Function.update_same]

/-- Full specification of `uart_write_bytes` (uart.c): with `free` slots
    remaining, exactly `min data.length free` bytes are accepted and appended
    in order, the read index is untouched, and the overflow counter is
    incremented once exactly when not all offered bytes fit. -/
theorem uart_write_bytes_spec (data : List Nat) (st : RingState) (h : st.wf) :
    (uart_write_bytes st data).2 = min data.length (1023 - st.occ) ∧
    (uart_write_bytes st data).1.queue =
      st.queue ++ data.take (1023 - st.occ) ∧
    (uart_write_bytes st data).1.occ =
      st.occ + min data.length (1023 - st.occ) ∧
    (uart_write_bytes st data).1.wf ∧
    (uart_write_bytes st data).1.overflow =
      st.overflow + (if 1023 - st.occ < data.length then 1 else 0) ∧
    (uart_write_bytes st data).1.tail = st.tail := by
  induction data generalizing st with
  | nil =>
    simp [uart_write_bytes, h, List.take]
  | cons b rest ih =>
    have hocc := st.occ_le h
    by_cases hfull : RING_INCREMENT st.head = st.tail
    · -- ring already full: one overflow increment, nothing accepted
      have hocc1023 : st.occ = 1023 := by
        obtain ⟨h1, h2⟩ := h
        rw [RING_INCREMENT_eq] at hfull
        simp only [RingState.occ]
        split <;> omega
      have hqueue : ({ st with overflow := st.overflow + 1 } : RingState).queue
          = st.queue := rfl
      have hocc' : ({ st with overflow := st.overflow + 1 } : RingState).occ
          = st.occ := rfl
      have hres : uart_write_bytes st (b :: rest)
          = ({ st with overflow := st.overflow + 1 }, 0) := by
        simp only [uart_write_bytes, if_pos hfull]
      rw [hres]
      refine ⟨by simp [hocc1023], by simp [hocc1023, hqueue], ?_, h,
        by simp [hocc1023], rfl⟩
      rw [hocc', hocc1023]
      simp
    · -- space available: store b, recurse
      obtain ⟨hq1, ho1, hw1⟩ := ring_store_one st b h hfull
      have hoccne : st.occ ≠ 1023 := by
        intro hc
        obtain ⟨h1, h2⟩ := h
        rw [RING_INCREMENT_eq] at hfull
        simp only [RingState.occ] at hc
        revert hc; split <;> (intro hc; omega)
      obtain ⟨ih1, ih2, ih3, ih4, ih5, ih6⟩ :=
        ih (RingState.mk (Function.update st.buf st.head b)
          (RING_INCREMENT st.head) st.tail st.overflow) hw1
      have htail' : (RingState.mk (Function.update st.buf st.head b)
          (RING_INCREMENT st.head) st.tail st.overflow).tail = st.tail := rfl
      have hov' : (RingState.mk (Function.update st.buf st.head b)
          (RING_INCREMENT st.head) st.tail st.overflow).overflow
          = st.overflow := rfl
      refine ⟨?_, ?_, ?_, ?_, ?_, ?_⟩ <;>
        simp only [uart_write_bytes, if_neg hfull]
      · rw [ih1, ho1]
        simp only [List.length_cons]
        omega
      · rw [ih2, hq1, ho1]
        obtain ⟨m, hm⟩ : ∃ m, 1023 - st.occ = m + 1 :=
          ⟨1023 - st.occ - 1, by omega⟩
        rw [show 1023 - (st.occ + 1) = m from by omega, hm,
          List.take_succ_cons, List.append_assoc]
        rfl
      · rw [ih3, ho1]
        simp only [List.length_cons]
        omega
      · exact ih4
      · rw [ih5, hov', ho1]
        by_cases hlt : 1023 - (st.occ + 1) < rest.length
        · rw [if_pos hlt, if_pos (by simp only [List.length_cons]; omega)]
        · rw [if_neg hlt, if_neg (by simp only [List.length_cons]; omega)]
      · rw [ih6, htail']

/-- Full specification of `uart_read_bytes` (uart.c): reading `n` bytes
    returns the first `min n occ` queued bytes in FIFO order and removes
    them; the write index and overflow counter are untouched. -/
theorem uart_read_bytes_spec (n : Nat) (st : RingState) (h : st.wf) :
    (uart_read_bytes st n).2 = st.queue.take n ∧
    (uart_read_bytes st n).1.queue = st.queue.drop n ∧
    (uart_read_bytes st n).1.wf ∧
    (uart_read_bytes st n).1.head = st.head ∧
    (uart_read_bytes st n).1.overflow = st.overflow ∧
    (uart_read_bytes st n).1.occ = st.occ - n := by
  induction n generalizing st with
  | zero => simp [uart_read_bytes, h]
  | succ n ih =>
    by_cases hempty : st.tail = st.head
    · have hocc0 : st.occ = 0 := by
        simp only [RingState.occ]; split <;> omega
      have hq : st.queue = [] := by
        simp [RingState.queue, hocc0]
      simp [uart_read_bytes, hempty, hq, h, hocc0]
    · obtain ⟨h1, h2⟩ := h
      have hoccpos : 0 < st.occ := by
        simp only [RingState.occ]; split <;> omega
      set st' : RingState :=
        { st with tail := RING_INCREMENT st.tail } with hst'
      have hw' : st'.wf := by
        constructor
        · exact h1
        · show RING_INCREMENT st.tail < 1024
          rw [RING_INCREMENT_eq]; omega
      have hocc' : st'.occ = st.occ - 1 := by
        show ({ st with tail := RING_INCREMENT st.tail } : RingState).occ
          = st.occ - 1
        rw [RING_INCREMENT_eq]
        simp only [RingState.occ]
        split <;> split <;> omega
      have hqcons : st.queue = st.buf st.tail :: st'.queue := by
        simp only [RingState.queue, hocc']
        have hresucc : st.occ = (st.occ - 1) + 1 := by omega
        rw [hresucc, List.range_succ_eq_map, List.map_cons, List.map_map]
        have h0 : (st.tail + 0) % 1024 = st.tail := by omega
        rw [show st.occ - 1 + 1 - 1 = st.occ - 1 by omega, h0]
        congr 1
        apply List.map_congr_left
        intro i _
        show st.buf ((st.tail + (i + 1)) % 1024)
          = st.buf ((RING_INCREMENT st.tail + i) % 1024)
        rw [RING_INCREMENT_eq]
        congr 1
        omega
      obtain ⟨ih1, ih2, ih3, ih4, ih5, ih6⟩ := ih st' hw'
      refine ⟨?_, ?_, ?_, ?_, ?_, ?_⟩ <;>
        simp only [uart_read_bytes, if_neg hempty]
      · rw [ih1, hqcons, List.take_succ_cons]
      · rw [ih2, hqcons, List.drop_succ_cons]
      · exact ih3
      · exact ih4
      · exact ih5
      · rw [ih6, hocc']; omega

/-- The ISR store loop appends all delivered bytes when they fit. -/
theorem uart0_rx_store_spec (data : List Nat) (st : RingState) (h : st.wf)
    (hfit : st.occ + data.length ≤ 1023) :
    (uart0_rx_store st data).queue = st.queue ++ data ∧
    (uart0_rx_store st data).occ = st.occ + data.length ∧
    (uart0_rx_store st data).wf ∧
    (uart0_rx_store st data).tail = st.tail ∧
    (uart0_rx_store st data).overflow = st.overflow := by
  induction data generalizing st with
  | nil => simp [uart0_rx_store, h]
  | cons b rest ih =>
    have hfull : RING_INCREMENT st.head ≠ st.tail := by
      intro hc
      obtain ⟨h1, h2⟩ := h
      rw [RING_INCREMENT_eq] at hc
      simp only [RingState.occ, List.length_cons] at hfit
      revert hfit; split <;> (intro hfit; omega)
    obtain ⟨hq1, ho1, hw1⟩ := ring_store_one st b h hfull
    set st' : RingState := RingState.mk (Function.update st.buf st.head b)
      (RING_INCREMENT st.head) st.tail st.overflow with hst'
    have hfit' : st'.occ + rest.length ≤ 1023 := by
      rw [ho1]; simp only [List.length_cons] at hfit; omega
    obtain ⟨ih1, ih2, ih3, ih4, ih5⟩ := ih st' hw1 hfit'
    have hres : uart0_rx_store st (b :: rest) = uart0_rx_store st' rest := by
      simp only [uart0_rx_store, if_pos hfull]
    rw [hres]
    refine ⟨?_, ?_, ih3, ?_, ?_⟩
    · rw [ih1, hq1, List.append_assoc]
      rfl
    · rw [ih2, ho1]
      simp only [List.length_cons]
      omega
    · rw [ih4]
    · rw [ih5]

/- ==================================================
   Claim C3: TX write overflow behaviour
   ================================================== -/

/-- C3 (amended): when `uart_write_bytes` offers `len` bytes to the TX ring
    and only `f = 1023 - occ < len` slots are free, the call accepts exactly
    the first `f` bytes, leaves every previously buffered byte unchanged,
    and increments `uart_tx_overflow_count` by exactly 1 per call (not by
    the excess count `len - f`). -/
theorem uart_write_bytes_overflow_law (st : RingState) (data : List Nat)
    (h : st.wf) (hover : 1023 - st.occ < data.length) :
    (uart_write_bytes st data).2 = 1023 - st.occ ∧
    (uart_write_bytes st data).1.queue =
      st.queue ++ data.take (1023 - st.occ) ∧
    (uart_write_bytes st data).1.overflow = st.overflow + 1 := by
  obtain ⟨w1, w2, _, _, w5, _⟩ := uart_write_bytes_spec data st h
  refine ⟨by rw [w1]; omega, w2, by rw [w5, if_pos hover]⟩

/-- C3 as stated is false: with 1022 of the 1023 usable slots occupied
    (one free slot) and 3 offered bytes, the code accepts 1 byte but
    increments the overflow counter by 1, not by the excess `len - f = 2`. -/
theorem uart_write_bytes_overflow_law_counterexample :
    1023 - (RingState.mk (fun _ => 0) 1022 0 0).occ = 1 ∧
    (uart_write_bytes (RingState.mk (fun _ => 0) 1022 0 0) [5, 6, 7]).2 = 1 ∧
    (uart_write_bytes (RingState.mk (fun _ => 0) 1022 0 0)
      [5, 6, 7]).1.overflow = 0 + 1 ∧
    ¬ ((uart_write_bytes (RingState.mk (fun _ => 0) 1022 0 0)
      [5, 6, 7]).1.overflow = 0 + ([5, 6, 7].length - 1)) := by
  refine ⟨by decide, by decide, by decide, by decide⟩

/-- Witness for the amended C3 at a concrete over-full write. -/
theorem uart_write_bytes_overflow_law_witness :
    (RingState.mk (fun _ => 0) 1022 0 0).wf ∧
    1023 - (RingState.mk (fun _ => 0) 1022 0 0).occ < [5, 6, 7].length ∧
    ((uart_write_bytes (RingState.mk (fun _ => 0) 1022 0 0) [5, 6, 7]).2 =
      1023 - (RingState.mk (fun _ => 0) 1022 0 0).occ ∧
    (uart_write_bytes (RingState.mk (fun _ => 0) 1022 0 0) [5, 6, 7]).1.queue =
      (RingState.mk (fun _ => 0) 1022 0 0).queue ++
        [5, 6, 7].take (1023 - (RingState.mk (fun _ => 0) 1022 0 0).occ) ∧
    (uart_write_bytes (RingState.mk (fun _ => 0) 1022 0 0)
      [5, 6, 7]).1.overflow = (RingState.mk (fun _ => 0) 1022 0 0).overflow + 1) :=
  ⟨by decide, by decide,
    uart_write_bytes_overflow_law (RingState.mk (fun _ => 0) 1022 0 0)
      [5, 6, 7] (by decide) (by decide)⟩

/- ==================================================
   Claim C6: ring buffer refines a bounded FIFO
   ================================================== -/

/-- Invariant form of the FIFO law: over any interleaving whose running
    occupancy never exceeds 1023, the content already queued plus everything
    the writes accept equals everything the reads return followed by what is
    still queued at the end. -/
theorem runUartOps_fifo (ops : List UartOp) (st : RingState) (h : st.wf)
    (hfit : opsFit st ops) :
    st.queue ++ (runUartOps st ops).2.1 =
      (runUartOps st ops).2.2 ++ (runUartOps st ops).1.queue ∧
    (runUartOps st ops).1.wf := by
  induction ops generalizing st with
  | nil => simpa [runUartOps] using h
  | cons op rest ih =>
    cases op with
    | write data =>
      obtain ⟨hfit1, hfit2⟩ := hfit
      obtain ⟨w1, w2, _, w4, _, _⟩ := uart_write_bytes_spec data st h
      obtain ⟨ih1, ih2⟩ := ih (uart_write_bytes st data).1 w4 hfit2
      have hqueue' : (uart_write_bytes st data).1.queue
          = st.queue ++ data := by
        rw [w2, List.take_of_length_le (by omega)]
      have hacc : data.take (uart_write_bytes st data).2 = data := by
        rw [w1, List.take_of_length_le (by omega)]
      refine ⟨?_, ih2⟩
      show st.queue ++ (data.take (uart_write_bytes st data).2 ++ _) = _
      rw [hacc, ← List.append_assoc, ← hqueue']
      exact ih1
    | read n =>
      obtain ⟨r1, r2, r3, _, _, _⟩ := uart_read_bytes_spec n st h
      obtain ⟨ih1, ih2⟩ := ih (uart_read_bytes st n).1 r3 hfit
      refine ⟨?_, ih2⟩
      show st.queue ++ (runUartOps (uart_read_bytes st n).1 rest).2.1 =
        ((uart_read_bytes st n).2 ++
          (runUartOps (uart_read_bytes st n).1 rest).2.2) ++
        (runUartOps (uart_read_bytes st n).1 rest).1.queue
      rw [r2] at ih1
      rw [r1, List.append_assoc, ← ih1, ← List.append_assoc,
        List.take_append_drop]

/-- C6: the UART ring buffer refines a bounded FIFO queue of capacity 1023
    (buffer size 1024 minus the reserved slot).  From the freshly
    initialized ring, for any interleaving of `uart_write_bytes` and
    `uart_read_bytes` calls whose running occupancy never exceeds 1023, the
    bytes accepted by the writes (in write order) are exactly the bytes the
    reads return followed by the bytes still queued; in particular, once the
    ring is drained, the concatenation of the reads equals the concatenation
    of the accepted writes — no loss, duplication, or reordering. -/
theorem uart_ring_fifo_law (ops : List UartOp)
    (hfit : opsFit uart_init ops) :
    (runUartOps uart_init ops).2.1 =
      (runUartOps uart_init ops).2.2 ++ (runUartOps uart_init ops).1.queue ∧
    ((runUartOps uart_init ops).1.queue = [] →
      (runUartOps uart_init ops).2.2 = (runUartOps uart_init ops).2.1) := by
  have h := runUartOps_fifo ops uart_init (by decide) hfit
  have hq : uart_init.queue = [] := by decide
  rw [hq, List.nil_append] at h
  refine ⟨h.1, fun hdr => ?_⟩
  rw [h.1, hdr, List.append_nil]

/-- Witness for C6 on a concrete interleaving that drains the ring. -/
theorem uart_ring_fifo_law_witness :
    opsFit uart_init [UartOp.write [1, 2, 3], UartOp.read 2,
      UartOp.write [4, 5], UartOp.read 9] ∧
    ((runUartOps uart_init [UartOp.write [1, 2, 3], UartOp.read 2,
        UartOp.write [4, 5], UartOp.read 9]).2.1 =
      (runUartOps uart_init [UartOp.write [1, 2, 3], UartOp.read 2,
        UartOp.write [4, 5], UartOp.read 9]).2.2 ++
      (runUartOps uart_init [UartOp.write [1, 2, 3], UartOp.read 2,
        UartOp.write [4, 5], UartOp.read 9]).1.queue ∧
    ((runUartOps uart_init [UartOp.write [1, 2, 3], UartOp.read 2,
        UartOp.write [4, 5], UartOp.read 9]).1.queue = [] →
      (runUartOps uart_init [UartOp.write [1, 2, 3], UartOp.read 2,
        UartOp.write [4, 5], UartOp.read 9]).2.2 =
      (runUartOps uart_init [UartOp.write [1, 2, 3], UartOp.read 2,
        UartOp.write [4, 5], UartOp.read 9]).2.1)) :=
  ⟨by decide,
    uart_ring_fifo_law [UartOp.write [1, 2, 3], UartOp.read 2,
      UartOp.write [4, 5], UartOp.read 9] (by decide)⟩

/- ==================================================
   Receive-filter pipeline lemmas (wifi_promiscuous_rx_cb)
   ================================================== -/

/-- When every filter passes, the callback increments `rx_count` and performs
    the two `uart_write_bytes` calls (length prefix, then payload). -/
theorem wifi_rx_cb_accepted_eq (st : WifiRxState) (tx : RingState)
    (f : CapturedFrame) (hacc : frameAccepted f) :
    wifi_promiscuous_rx_cb st tx f =
      ({ st with rx_count := st.rx_count + 1 }, rxForwardTx tx f) := by
  obtain ⟨a1, a2, a3, a4, a5⟩ := hacc
  simp only [wifi_promiscuous_rx_cb, rxForwardTx, writeTwice, lenPrefixOf]
  rw [if_neg (by push_neg; exact ⟨a1, by omega⟩), if_neg (not_not_intro a3),
    if_neg (not_not_intro a4), if_neg (by omega)]

/-- When any filter fails, the callback only bumps `rx_drop_count` and the
    TX ring is untouched. -/
theorem wifi_rx_cb_rejected_eq (st : WifiRxState) (tx : RingState)
    (f : CapturedFrame) (hrej : ¬ frameAccepted f) :
    wifi_promiscuous_rx_cb st tx f =
      ({ st with rx_drop_count := st.rx_drop_count + 1 }, tx) := by
  simp only [wifi_promiscuous_rx_cb]
  by_cases h1 : f.rx_ctrl.sig_mode ≠ 0 ∨ f.len < sizeof_RxControl + 28
  · rw [if_pos h1]
  · rw [if_neg h1]
    by_cases h2 : f.frame_control &&& IEEE80211_FCTL_FTYPE ≠ IEEE80211_FCTL_MGMT
    · rw [if_pos h2]
    · rw [if_neg h2]
      by_cases h3 : f.addr3 ≠ custom_bssid
      · rw [if_pos h3]
      · rw [if_neg h3]
        have h4 : rxPayloadLen f.rx_ctrl.legacy_length > MAX_PACKET_SIZE := by
          by_contra h4
          push_neg at h1 h2 h3 h4
          exact hrej ⟨h1.1, by omega, h2, h3, h4⟩
        rw [if_pos h4]

/-- Composition of the two forwarding writes: the bytes appended to the TX
    ring are the first `free` bytes of the combined offered sequence, and
    the overflow counter gains one increment per write call that could not
    accept everything. -/
theorem uart_write_twice_spec (tx : RingState) (d1 d2 : List Nat)
    (h : tx.wf) :
    (writeTwice tx d1 d2).queue =
      tx.queue ++ (d1 ++ d2).take (1023 - tx.occ) ∧
    (writeTwice tx d1 d2).wf ∧
    (writeTwice tx d1 d2).overflow =
      tx.overflow + (if 1023 - tx.occ < d1.length then 1 else 0) +
        (if 1023 - (uart_write_bytes tx d1).1.occ < d2.length then 1
         else 0) := by
  obtain ⟨w1, w2, w3, w4, w5, w6⟩ := uart_write_bytes_spec d1 tx h
  obtain ⟨v1, v2, v3, v4, v5, v6⟩ :=
    uart_write_bytes_spec d2 (uart_write_bytes tx d1).1 w4
  have hocc2 : 1023 - (uart_write_bytes tx d1).1.occ =
      (1023 - tx.occ) - d1.length := by
    rw [w3]; omega
  simp only [writeTwice]
  refine ⟨?_, v4, ?_⟩
  · rw [v2, w2, hocc2, List.append_assoc, List.take_append_eq_append_take]
  · rw [v5, w5]

/- ==================================================
   Claim C2: receive filter acceptance law
   ================================================== -/

/-- C2 (amended): `wifi_promiscuous_rx_cb` accepts a captured frame
    (increments `rx_count`) iff `sig_mode = 0`, the captured length is at
    least `sizeof(RxControl) + 28`, the frame-control type subfield is the
    management category, `addr3` equals `CUSTOM_BSSID`, and the computed
    `uint16_t` payload length `legacy_length - 24 - 4` is at most
    `MAX_PACKET_SIZE` — a computed length of zero is accepted (the code has
    no positivity check).  Any single violation leaves the TX ring unchanged
    (zero bytes written), increments `rx_drop_count` by exactly 1 and leaves
    `rx_count` unchanged; on acceptance `rx_drop_count` is unchanged and the
    length prefix plus payload are offered to the TX ring. -/
theorem wifi_rx_filter_acceptance_law (st : WifiRxState) (tx : RingState)
    (f : CapturedFrame) :
    ((wifi_promiscuous_rx_cb st tx f).1.rx_count = st.rx_count + 1 ↔
      frameAccepted f) ∧
    (¬ frameAccepted f →
      (wifi_promiscuous_rx_cb st tx f).1.rx_drop_count =
        st.rx_drop_count + 1 ∧
      (wifi_promiscuous_rx_cb st tx f).1.rx_count = st.rx_count ∧
      (wifi_promiscuous_rx_cb st tx f).2 = tx) ∧
    (frameAccepted f →
      (wifi_promiscuous_rx_cb st tx f).1.rx_drop_count = st.rx_drop_count ∧
      (wifi_promiscuous_rx_cb st tx f).2 = rxForwardTx tx f) := by
  by_cases hacc : frameAccepted f
  · rw [wifi_rx_cb_accepted_eq st tx f hacc]
    refine ⟨iff_of_true ?_ hacc, fun hn => absurd hacc hn,
      fun _ => ⟨?_, ?_⟩⟩
    · dsimp only
    · dsimp only
    · dsimp only
  · rw [wifi_rx_cb_rejected_eq st tx f hacc]
    refine ⟨iff_of_false ?_ hacc, fun _ => ⟨rfl, rfl, rfl⟩,
      fun ha => absurd ha hacc⟩
    intro hc
    have hc' : st.rx_count = st.rx_count + 1 := hc
    omega

/-- C2 as stated is false: a frame passing all other filters whose reported
    over-the-air length is exactly 28 gives computed payload length 0 — not
    strictly positive — yet the code accepts it: `rx_count` is incremented,
    `rx_drop_count` is not, and the two-byte zero length prefix is written
    to the TX ring. -/
theorem wifi_rx_filter_acceptance_law_counterexample :
    rxPayloadLen 28 = 0 ∧
    (wifi_promiscuous_rx_cb ⟨0, 0⟩ uart_init
      ⟨⟨0, 28⟩, 128, 0x0040,
        [0xAA, 0xBB, 0xCC, 0xDD, 0xEE, 0x00], []⟩).1.rx_count = 1 ∧
    (wifi_promiscuous_rx_cb ⟨0, 0⟩ uart_init
      ⟨⟨0, 28⟩, 128, 0x0040,
        [0xAA, 0xBB, 0xCC, 0xDD, 0xEE, 0x00], []⟩).1.rx_drop_count = 0 ∧
    (wifi_promiscuous_rx_cb ⟨0, 0⟩ uart_init
      ⟨⟨0, 28⟩, 128, 0x0040,
        [0xAA, 0xBB, 0xCC, 0xDD, 0xEE, 0x00], []⟩).2.queue = [0, 0] := by
  refine ⟨by decide, by decide, by decide, by decide⟩

/-- Witness for the amended C2 at a concrete accepted frame. -/
theorem wifi_rx_filter_acceptance_law_witness :
    ((wifi_promiscuous_rx_cb ⟨3, 4⟩ uart_init
      ⟨⟨0, 30⟩, 128, 0x0040,
        [0xAA, 0xBB, 0xCC, 0xDD, 0xEE, 0x00], [9, 8]⟩).1.rx_count = 3 + 1 ↔
      frameAccepted ⟨⟨0, 30⟩, 128, 0x0040,
        [0xAA, 0xBB, 0xCC, 0xDD, 0xEE, 0x00], [9, 8]⟩) ∧
    (¬ frameAccepted ⟨⟨0, 30⟩, 128, 0x0040,
        [0xAA, 0xBB, 0xCC, 0xDD, 0xEE, 0x00], [9, 8]⟩ →
      (wifi_promiscuous_rx_cb ⟨3, 4⟩ uart_init
        ⟨⟨0, 30⟩, 128, 0x0040,
          [0xAA, 0xBB, 0xCC, 0xDD, 0xEE, 0x00], [9, 8]⟩).1.rx_drop_count =
        4 + 1 ∧
      (wifi_promiscuous_rx_cb ⟨3, 4⟩ uart_init
        ⟨⟨0, 30⟩, 128, 0x0040,
          [0xAA, 0xBB, 0xCC, 0xDD, 0xEE, 0x00], [9, 8]⟩).1.rx_count = 3 ∧
      (wifi_promiscuous_rx_cb ⟨3, 4⟩ uart_init
        ⟨⟨0, 30⟩, 128, 0x0040,
          [0xAA, 0xBB, 0xCC, 0xDD, 0xEE, 0x00], [9, 8]⟩).2 = uart_init) ∧
    (frameAccepted ⟨⟨0, 30⟩, 128, 0x0040,
        [0xAA, 0xBB, 0xCC, 0xDD, 0xEE, 0x00], [9, 8]⟩ →
      (wifi_promiscuous_rx_cb ⟨3, 4⟩ uart_init
        ⟨⟨0, 30⟩, 128, 0x0040,
          [0xAA, 0xBB, 0xCC, 0xDD, 0xEE, 0x00], [9, 8]⟩).1.rx_drop_count =
        4 ∧
      (wifi_promiscuous_rx_cb ⟨3, 4⟩ uart_init
        ⟨⟨0, 30⟩, 128, 0x0040,
          [0xAA, 0xBB, 0xCC, 0xDD, 0xEE, 0x00], [9, 8]⟩).2 =
        rxForwardTx uart_init ⟨⟨0, 30⟩, 128, 0x0040,
          [0xAA, 0xBB, 0xCC, 0xDD, 0xEE, 0x00], [9, 8]⟩) :=
  wifi_rx_filter_acceptance_law ⟨3, 4⟩ uart_init
    ⟨⟨0, 30⟩, 128, 0x0040, [0xAA, 0xBB, 0xCC, 0xDD, 0xEE, 0x00], [9, 8]⟩

/- ==================================================
   Claim C10: acceptance counting vs. complete delivery
   ================================================== -/

/-- C10: when an accepted frame is forwarded while the TX ring has fewer
    than `payload_len + 2` free slots, `rx_count` is still incremented and
    `rx_drop_count` untouched, but only a strict prefix of the sequence
    `[LEN_HI][LEN_LO][payload]` is appended to the ring; the rest is dropped
    with only the TX overflow counter recording the loss. -/
theorem wifi_rx_accepted_truncated_forward (st : WifiRxState)
    (tx : RingState) (f : CapturedFrame) (htx : tx.wf)
    (hacc : frameAccepted f)
    (hpl : rxPayloadLen f.rx_ctrl.legacy_length ≤ f.payload.length)
    (hshort : 1023 - tx.occ < rxPayloadLen f.rx_ctrl.legacy_length + 2) :
    (wifi_promiscuous_rx_cb st tx f).1.rx_count = st.rx_count + 1 ∧
    (wifi_promiscuous_rx_cb st tx f).1.rx_drop_count = st.rx_drop_count ∧
    (wifi_promiscuous_rx_cb st tx f).2.queue =
      tx.queue ++
        ((lenPrefixOf (rxPayloadLen f.rx_ctrl.legacy_length) ++
          f.payload.take (rxPayloadLen f.rx_ctrl.legacy_length)).take
          (1023 - tx.occ)) ∧
    1023 - tx.occ <
      (lenPrefixOf (rxPayloadLen f.rx_ctrl.legacy_length) ++
        f.payload.take (rxPayloadLen f.rx_ctrl.legacy_length)).length ∧
    tx.overflow < (wifi_promiscuous_rx_cb st tx f).2.overflow := by
  rw [wifi_rx_cb_accepted_eq st tx f hacc]
  obtain ⟨t1, _, t3⟩ := uart_write_twice_spec tx
    (lenPrefixOf (rxPayloadLen f.rx_ctrl.legacy_length))
    (f.payload.take (rxPayloadLen f.rx_ctrl.legacy_length)) htx
  obtain ⟨_, _, w3, _, _, _⟩ := uart_write_bytes_spec
    (lenPrefixOf (rxPayloadLen f.rx_ctrl.legacy_length)) tx htx
  have hlen : (f.payload.take
      (rxPayloadLen f.rx_ctrl.legacy_length)).length =
      rxPayloadLen f.rx_ctrl.legacy_length := by
    rw [List.length_take]
    omega
  have hlenp : (lenPrefixOf
      (rxPayloadLen f.rx_ctrl.legacy_length)).length = 2 := rfl
  refine ⟨?_, ?_, ?_, ?_, ?_⟩
  · dsimp only
  · dsimp only
  · dsimp only
    rw [rxForwardTx]
    exact t1
  · simp only [List.length_append, hlen, hlenp]
    omega
  · dsimp only
    rw [rxForwardTx, t3]
    rw [hlenp, hlen, w3, hlenp]
    by_cases hf : 1023 - tx.occ < 2
    · rw [if_pos hf]
      omega
    · rw [if_neg hf, if_pos (by omega)]
      omega

/-- Witness for C10: a nearly full TX ring (one free slot) receiving an
    accepted 2-byte-payload frame. -/
theorem wifi_rx_accepted_truncated_forward_witness :
    (RingState.mk (fun _ => 0) 1022 0 0).wf ∧
    frameAccepted ⟨⟨0, 30⟩, 128, 0x0040,
      [0xAA, 0xBB, 0xCC, 0xDD, 0xEE, 0x00], [9, 8]⟩ ∧
    rxPayloadLen (CapturedFrame.mk ⟨0, 30⟩ 128 0x0040
      [0xAA, 0xBB, 0xCC, 0xDD, 0xEE, 0x00]
      [9, 8]).rx_ctrl.legacy_length ≤
      (CapturedFrame.mk ⟨0, 30⟩ 128 0x0040
        [0xAA, 0xBB, 0xCC, 0xDD, 0xEE, 0x00] [9, 8]).payload.length ∧
    1023 - (RingState.mk (fun _ => 0) 1022 0 0).occ <
      rxPayloadLen (CapturedFrame.mk ⟨0, 30⟩ 128 0x0040
        [0xAA, 0xBB, 0xCC, 0xDD, 0xEE, 0x00]
        [9, 8]).rx_ctrl.legacy_length + 2 ∧
    ((wifi_promiscuous_rx_cb ⟨0, 0⟩ (RingState.mk (fun _ => 0) 1022 0 0)
      ⟨⟨0, 30⟩, 128, 0x0040,
        [0xAA, 0xBB, 0xCC, 0xDD, 0xEE, 0x00], [9, 8]⟩).1.rx_count = 0 + 1 ∧
     (wifi_promiscuous_rx_cb ⟨0, 0⟩ (RingState.mk (fun _ => 0) 1022 0 0)
      ⟨⟨0, 30⟩, 128, 0x0040,
        [0xAA, 0xBB, 0xCC, 0xDD, 0xEE, 0x00], [9, 8]⟩).1.rx_drop_count = 0 ∧
     (wifi_promiscuous_rx_cb ⟨0, 0⟩ (RingState.mk (fun _ => 0) 1022 0 0)
      ⟨⟨0, 30⟩, 128, 0x0040,
        [0xAA, 0xBB, 0xCC, 0xDD, 0xEE, 0x00], [9, 8]⟩).2.queue =
      (RingState.mk (fun _ => 0) 1022 0 0).queue ++
        ((lenPrefixOf (rxPayloadLen (CapturedFrame.mk ⟨0, 30⟩ 128 0x0040
            [0xAA, 0xBB, 0xCC, 0xDD, 0xEE, 0x00]
            [9, 8]).rx_ctrl.legacy_length) ++
          (CapturedFrame.mk ⟨0, 30⟩ 128 0x0040
            [0xAA, 0xBB, 0xCC, 0xDD, 0xEE, 0x00] [9, 8]).payload.take
            (rxPayloadLen (CapturedFrame.mk ⟨0, 30⟩ 128 0x0040
              [0xAA, 0xBB, 0xCC, 0xDD, 0xEE, 0x00]
              [9, 8]).rx_ctrl.legacy_length)).take
          (1023 - (RingState.mk (fun _ => 0) 1022 0 0).occ)) ∧
     1023 - (RingState.mk (fun _ => 0) 1022 0 0).occ <
      (lenPrefixOf (rxPayloadLen (CapturedFrame.mk ⟨0, 30⟩ 128 0x0040
          [0xAA, 0xBB, 0xCC, 0xDD, 0xEE, 0x00]
          [9, 8]).rx_ctrl.legacy_length) ++
        (CapturedFrame.mk ⟨0, 30⟩ 128 0x0040
          [0xAA, 0xBB, 0xCC, 0xDD, 0xEE, 0x00] [9, 8]).payload.take
          (rxPayloadLen (CapturedFrame.mk ⟨0, 30⟩ 128 0x0040
            [0xAA, 0xBB, 0xCC, 0xDD, 0xEE, 0x00]
            [9, 8]).rx_ctrl.legacy_length)).length ∧
     (RingState.mk (fun _ => 0) 1022 0 0).overflow <
      (wifi_promiscuous_rx_cb ⟨0, 0⟩ (RingState.mk (fun _ => 0) 1022 0 0)
        ⟨⟨0, 30⟩, 128, 0x0040,
          [0xAA, 0xBB, 0xCC, 0xDD, 0xEE, 0x00], [9, 8]⟩).2.overflow) :=
  ⟨by decide, by decide, by decide, by decide,
    wifi_rx_accepted_truncated_forward ⟨0, 0⟩
      (RingState.mk (fun _ => 0) 1022 0 0)
      ⟨⟨0, 30⟩, 128, 0x0040, [0xAA, 0xBB, 0xCC, 0xDD, 0xEE, 0x00], [9, 8]⟩
      (by decide) (by decide) (by decide) (by decide)⟩

/- ==================================================
   802.11 TX lemmas
   ================================================== -/

theorem testBit_fff0 (i : Nat) :
    Nat.testBit 0xFFF0 i = (decide (4 ≤ i) && decide (i < 16)) := by
  rcases Nat.lt_or_ge i 16 with h | h
  · interval_cases i <;> decide
  · rw [Nat.testBit_lt_two_pow]
    · simp
      omega
    · calc (0xFFF0 : Nat) < 2 ^ 16 := by norm_num
        _ ≤ 2 ^ i := Nat.pow_le_pow_right (by norm_num) h

/-- The value stored into `seq_ctrl`: `(tx_sequence << 4) & 0xFFF0` is the
    low 12 bits of the counter shifted into bits 15:4. -/
theorem seq_ctrl_shift_eq (s : Nat) :
    (s <<< 4) &&& 0xFFF0 = s % 4096 * 16 := by
  have hr : s % 4096 * 16 = (s % 2 ^ 12) <<< 4 := by
    rw [Nat.shiftLeft_eq]
    norm_num
  rw [hr]
  apply Nat.eq_of_testBit_eq
  intro i
  simp only [Nat.testBit_and, Nat.testBit_shiftLeft, Nat.testBit_mod_two_pow,
    testBit_fff0]
  rcases Nat.lt_or_ge i 4 with h4 | h4
  · simp [show ¬ (4 ≤ i) from by omega]
  · rcases Nat.lt_or_ge i 16 with h16 | h16
    · simp [h4, h16, show i - 4 < 12 from by omega]
    · simp [h4, show ¬ (i < 16) from by omega,
        show ¬ (i - 4 < 12) from by omega]

/-- Path equation: NULL data pointer. -/
theorem wifi_raw_send_none_eq (mac : List Nat) (st : WifiTxState) (r : Int) :
    wifi_raw_send mac st none r =
      ({ st with tx_error_count := st.tx_error_count + 1 }, -1, none) := rfl

/-- Path equation: empty or oversized payload. -/
theorem wifi_raw_send_bad_eq (mac : List Nat) (st : WifiTxState) (r : Int)
    (d : List Nat) (h : d.length = 0 ∨ d.length > MAX_PACKET_SIZE) :
    wifi_raw_send mac st (some d) r =
      ({ st with tx_error_count := st.tx_error_count + 1 }, -1, none) := by
  simp only [wifi_raw_send]
  rw [if_pos h]

/-- Path equation: valid payload but a transmission is outstanding. -/
theorem wifi_raw_send_busy_eq (mac : List Nat) (st : WifiTxState) (r : Int)
    (d : List Nat) (hgood : ¬ (d.length = 0 ∨ d.length > MAX_PACKET_SIZE))
    (hbusy : st.tx_ready = 0) :
    wifi_raw_send mac st (some d) r =
      ({ st with tx_error_count := st.tx_error_count + 1 }, -1, none) := by
  simp only [wifi_raw_send]
  rw [if_neg hgood, if_pos hbusy]

/-- Path equation: validation passes, the frame is built and handed to
    `wifi_send_pkt_freedom`, and the outcome depends on its result. -/
theorem wifi_raw_send_ok_eq (mac : List Nat) (st : WifiTxState) (r : Int)
    (d : List Nat) (hgood : ¬ (d.length = 0 ∨ d.length > MAX_PACKET_SIZE))
    (hready : ¬ st.tx_ready = 0) :
    wifi_raw_send mac st (some d) r =
      (if r = 0 then
        (WifiTxState.mk (build_80211_header mac st.tx_sequence).2 0
          (st.tx_count + 1) st.tx_error_count, 0,
         some (hdrBytes (build_80211_header mac st.tx_sequence).1 ++ d))
      else
        (WifiTxState.mk (build_80211_header mac st.tx_sequence).2 1
          st.tx_count (st.tx_error_count + 1), r,
         some (hdrBytes (build_80211_header mac st.tx_sequence).1 ++ d))) := by
  simp only [wifi_raw_send]
  rw [if_neg hgood, if_neg hready]

/- ==================================================
   Claim C7: sequence number law
   ================================================== -/

/-- C7: on every `build_80211_header` call the low 4 (fragment) bits of
    `seq_ctrl` are zero and the 12-bit sequence value in bits 15:4 equals
    the current counter mod 4096; a second build yields that value plus 1
    mod 4096; and `wifi_raw_send` advances the counter (by exactly 1 mod
    2^16) whenever it builds a header, for every result of
    `wifi_send_pkt_freedom` — success or failure. -/
theorem build_header_sequence_law (mac : List Nat) (s : Nat) :
    (build_80211_header mac s).1.seq_ctrl % 16 = 0 ∧
    (build_80211_header mac s).1.seq_ctrl / 16 = s % 4096 ∧
    (build_80211_header mac (build_80211_header mac s).2).1.seq_ctrl / 16 =
      ((build_80211_header mac s).1.seq_ctrl / 16 + 1) % 4096 ∧
    (∀ (st : WifiTxState) (data : List Nat) (r : Int),
      st.tx_ready ≠ 0 → data.length ≠ 0 → data.length ≤ MAX_PACKET_SIZE →
      (wifi_raw_send mac st (some data) r).1.tx_sequence =
        (st.tx_sequence + 1) % 65536) := by
  have hb : ∀ t : Nat, (build_80211_header mac t).1.seq_ctrl =
      t % 4096 * 16 := by
    intro t
    show (t <<< 4) &&& 0xFFF0 = t % 4096 * 16
    exact seq_ctrl_shift_eq t
  have hb2 : ∀ t : Nat, (build_80211_header mac t).2 = (t + 1) % 65536 :=
    fun t => rfl
  refine ⟨?_, ?_, ?_, ?_⟩
  · rw [hb]
    exact Nat.mul_mod_left _ _
  · rw [hb]
    exact Nat.mul_div_cancel _ (by norm_num)
  · rw [hb, hb, hb2, Nat.mul_div_cancel _ (by norm_num),
      Nat.mul_div_cancel _ (by norm_num)]
    rw [Nat.mod_mod_of_dvd _ (by norm_num), Nat.mod_add_mod]
  · intro st data r hready hlen hmax
    rw [wifi_raw_send_ok_eq mac st r data
      (by push_neg; exact ⟨hlen, by
        simp only [MAX_PACKET_SIZE] at hmax ⊢
        omega⟩) hready]
    by_cases hr : r = 0
    · rw [if_pos hr]
      exact hb2 st.tx_sequence
    · rw [if_neg hr]
      exact hb2 st.tx_sequence

/- ==================================================
   Claim C4: the tx_ready flag discipline
   ================================================== -/

/-- C4 (amended): `tx_ready` is cleared exactly when `wifi_raw_send` issues
    a transmission that `wifi_send_pkt_freedom` accepts (returns 0); when
    the SDK rejects the frame, `wifi_raw_send` itself restores the flag to 1
    synchronously (not the completion callback); `wifi_freedom_tx_cb`
    always sets the flag to 1; and a transmission is only ever issued while
    the flag is nonzero, so at most one transmission is outstanding. -/
theorem tx_ready_flag_law (mac : List Nat) (st : WifiTxState)
    (data : Option (List Nat)) (r : Int) :
    ((wifi_raw_send mac st data r).1.tx_ready =
      if (wifi_raw_send mac st data r).2.2 ≠ none then
        (if r = 0 then 0 else 1)
      else st.tx_ready) ∧
    (∀ (status : Nat) (w : WifiTxState),
      (wifi_freedom_tx_cb status w).tx_ready = 1) ∧
    ((wifi_raw_send mac st data r).2.2 ≠ none → st.tx_ready ≠ 0) := by
  refine ⟨?_, fun status w => rfl, ?_⟩
  · cases data with
    | none => rw [wifi_raw_send_none_eq]; simp
    | some d =>
      by_cases h1 : d.length = 0 ∨ d.length > MAX_PACKET_SIZE
      · rw [wifi_raw_send_bad_eq mac st r d h1]; simp
      · by_cases h2 : st.tx_ready = 0
        · rw [wifi_raw_send_busy_eq mac st r d h1 h2]; simp [h2]
        · rw [wifi_raw_send_ok_eq mac st r d h1 h2]
          by_cases hr : r = 0
          · rw [if_pos hr, if_pos hr]; simp [hr]
          · rw [if_neg hr, if_neg hr]; simp [hr]
  · cases data with
    | none => rw [wifi_raw_send_none_eq]; simp
    | some d =>
      by_cases h1 : d.length = 0 ∨ d.length > MAX_PACKET_SIZE
      · rw [wifi_raw_send_bad_eq mac st r d h1]; simp
      · by_cases h2 : st.tx_ready = 0
        · rw [wifi_raw_send_busy_eq mac st r d h1 h2]; simp
        · intro _
          exact h2

/-- C4 as stated is false: when `wifi_send_pkt_freedom` rejects the frame
    (returns -1), `wifi_raw_send` itself sets `tx_ready` back to 1 on the
    spot — the flag is not set to 1 only by the asynchronous completion
    callback `wifi_freedom_tx_cb`. -/
theorem tx_ready_flag_law_counterexample :
    (wifi_raw_send [1, 2, 3, 4, 5, 6] ⟨5, 1, 0, 0⟩ (some [9]) (-1)).2.2 ≠
      none ∧
    (wifi_raw_send [1, 2, 3, 4, 5, 6] ⟨5, 1, 0, 0⟩ (some [9]) (-1)).2.1 ≠
      0 ∧
    (wifi_raw_send [1, 2, 3, 4, 5, 6] ⟨5, 1, 0, 0⟩
      (some [9]) (-1)).1.tx_ready = 1 := by
  refine ⟨by decide, by decide, by decide⟩

/- ==================================================
   Claim C8: wifi_raw_send failure contract
   ================================================== -/

/-- C8: with an empty payload (NULL or length 0), an oversized payload, or
    while a prior transmission is outstanding (`tx_ready = 0`),
    `wifi_raw_send` returns -1, increments `tx_error_count` by exactly 1,
    issues no transmission, and leaves all other TX state (counter,
    sequence, flag) untouched — the packet is dropped with no retry. -/
theorem wifi_raw_send_error_law (mac : List Nat) (st : WifiTxState)
    (data : Option (List Nat)) (r : Int)
    (herr : data = none ∨
      (∃ d, data = some d ∧
        (d.length = 0 ∨ d.length > MAX_PACKET_SIZE)) ∨
      st.tx_ready = 0) :
    (wifi_raw_send mac st data r).2.1 = -1 ∧
    (wifi_raw_send mac st data r).1.tx_error_count =
      st.tx_error_count + 1 ∧
    (wifi_raw_send mac st data r).2.2 = none ∧
    (wifi_raw_send mac st data r).1.tx_count = st.tx_count ∧
    (wifi_raw_send mac st data r).1.tx_sequence = st.tx_sequence ∧
    (wifi_raw_send mac st data r).1.tx_ready = st.tx_ready := by
  cases data with
  | none =>
    rw [wifi_raw_send_none_eq]
    exact ⟨rfl, rfl, rfl, rfl, rfl, rfl⟩
  | some d =>
    by_cases h1 : d.length = 0 ∨ d.length > MAX_PACKET_SIZE
    · rw [wifi_raw_send_bad_eq mac st r d h1]
      exact ⟨rfl, rfl, rfl, rfl, rfl, rfl⟩
    · have hbusy : st.tx_ready = 0 := by
        rcases herr with h | ⟨d', hd', hbad⟩ | h
        · exact absurd h (by simp)
        · injection hd' with hdd
          subst hdd
          exact absurd hbad h1
        · exact h
      rw [wifi_raw_send_busy_eq mac st r d h1 hbusy]
      exact ⟨rfl, rfl, rfl, rfl, rfl, rfl⟩

/-- Witness for C8: a send attempted while a transmission is outstanding. -/
theorem wifi_raw_send_error_law_witness :
    ((some [9] : Option (List Nat)) = none ∨
      (∃ d, (some [9] : Option (List Nat)) = some d ∧
        (d.length = 0 ∨ d.length > MAX_PACKET_SIZE)) ∨
      (WifiTxState.mk 7 0 3 4).tx_ready = 0) ∧
    ((wifi_raw_send [1, 2, 3, 4, 5, 6] ⟨7, 0, 3, 4⟩ (some [9]) 0).2.1 =
      -1 ∧
    (wifi_raw_send [1, 2, 3, 4, 5, 6] ⟨7, 0, 3, 4⟩
      (some [9]) 0).1.tx_error_count =
      (WifiTxState.mk 7 0 3 4).tx_error_count + 1 ∧
    (wifi_raw_send [1, 2, 3, 4, 5, 6] ⟨7, 0, 3, 4⟩ (some [9]) 0).2.2 =
      none ∧
    (wifi_raw_send [1, 2, 3, 4, 5, 6] ⟨7, 0, 3, 4⟩
      (some [9]) 0).1.tx_count = (WifiTxState.mk 7 0 3 4).tx_count ∧
    (wifi_raw_send [1, 2, 3, 4, 5, 6] ⟨7, 0, 3, 4⟩
      (some [9]) 0).1.tx_sequence = (WifiTxState.mk 7 0 3 4).tx_sequence ∧
    (wifi_raw_send [1, 2, 3, 4, 5, 6] ⟨7, 0, 3, 4⟩
      (some [9]) 0).1.tx_ready = (WifiTxState.mk 7 0 3 4).tx_ready) :=
  ⟨Or.inr (Or.inr (by decide)),
    wifi_raw_send_error_law [1, 2, 3, 4, 5, 6] ⟨7, 0, 3, 4⟩ (some [9]) 0
      (Or.inr (Or.inr (by decide)))⟩

/- ==================================================
   Claim C9: frame assembly stays within tx_frame_buffer
   ================================================== -/

/-- C9: whenever `wifi_raw_send` reaches the copy into `tx_frame_buffer`
    (i.e. actually issues a frame), the assembled frame is exactly the
    24-byte 802.11 header followed by the payload, and its total length
    `IEEE80211_HEADER_SIZE + len ≤ TX_FRAME_BUFFER_SIZE = 280` — so under
    the validation branch every header and payload byte lands inside the
    280-byte `tx_frame_buffer` and the out-of-bounds case is unreachable. -/
theorem wifi_raw_send_frame_in_bounds (mac : List Nat) (st : WifiTxState)
    (data : Option (List Nat)) (r : Int) (frame : List Nat)
    (hmac : mac.length = 6)
    (hframe : (wifi_raw_send mac st data r).2.2 = some frame) :
    (∃ d, data = some d ∧
      frame = hdrBytes (build_80211_header mac st.tx_sequence).1 ++ d ∧
      frame.length = IEEE80211_HEADER_SIZE + d.length) ∧
    frame.length ≤ TX_FRAME_BUFFER_SIZE := by
  have hhdr : (hdrBytes (build_80211_header mac st.tx_sequence).1).length
      = 24 := by
    simp [hdrBytes, u16le, build_80211_header, broadcast_mac, custom_bssid,
      hmac]
  cases data with
  | none =>
    rw [wifi_raw_send_none_eq] at hframe
    exact absurd hframe (by simp)
  | some d =>
    by_cases h1 : d.length = 0 ∨ d.length > MAX_PACKET_SIZE
    · rw [wifi_raw_send_bad_eq mac st r d h1] at hframe
      exact absurd hframe (by simp)
    · by_cases h2 : st.tx_ready = 0
      · rw [wifi_raw_send_busy_eq mac st r d h1 h2] at hframe
        exact absurd hframe (by simp)
      · rw [wifi_raw_send_ok_eq mac st r d h1 h2] at hframe
        have hfr : frame =
            hdrBytes (build_80211_header mac st.tx_sequence).1 ++ d := by
          by_cases hr : r = 0
          · rw [if_pos hr] at hframe
            injection hframe with h
            exact h.symm
          · rw [if_neg hr] at hframe
            injection hframe with h
            exact h.symm
        have hflen : frame.length = IEEE80211_HEADER_SIZE + d.length := by
          rw [hfr, List.length_append, hhdr]
          rfl
        refine ⟨⟨d, rfl, hfr, hflen⟩, ?_⟩
        rw [hflen]
        push_neg at h1
        simp only [TX_FRAME_BUFFER_SIZE, IEEE80211_HEADER_SIZE,
          MAX_PACKET_SIZE] at h1 ⊢
        omega

/-- Witness for C9 at a concrete successful send. -/
theorem wifi_raw_send_frame_in_bounds_witness :
    ([1, 2, 3, 4, 5, 6] : List Nat).length = 6 ∧
    (wifi_raw_send [1, 2, 3, 4, 5, 6] ⟨0, 1, 0, 0⟩ (some [9, 9]) 0).2.2 =
      some [0x40, 0, 0, 0, 0xFF, 0xFF, 0xFF, 0xFF, 0xFF, 0xFF,
        1, 2, 3, 4, 5, 6, 0xAA, 0xBB, 0xCC, 0xDD, 0xEE, 0x00, 0, 0,
        9, 9] ∧
    ((∃ d, (some [9, 9] : Option (List Nat)) = some d ∧
      ([0x40, 0, 0, 0, 0xFF, 0xFF, 0xFF, 0xFF, 0xFF, 0xFF,
        1, 2, 3, 4, 5, 6, 0xAA, 0xBB, 0xCC, 0xDD, 0xEE, 0x00, 0, 0,
        9, 9] : List Nat) =
        hdrBytes (build_80211_header [1, 2, 3, 4, 5, 6]
          (WifiTxState.mk 0 1 0 0).tx_sequence).1 ++ d ∧
      ([0x40, 0, 0, 0, 0xFF, 0xFF, 0xFF, 0xFF, 0xFF, 0xFF,
        1, 2, 3, 4, 5, 6, 0xAA, 0xBB, 0xCC, 0xDD, 0xEE, 0x00, 0, 0,
        9, 9] : List Nat).length = IEEE80211_HEADER_SIZE + d.length) ∧
    ([0x40, 0, 0, 0, 0xFF, 0xFF, 0xFF, 0xFF, 0xFF, 0xFF,
      1, 2, 3, 4, 5, 6, 0xAA, 0xBB, 0xCC, 0xDD, 0xEE, 0x00, 0, 0,
      9, 9] : List Nat).length ≤ TX_FRAME_BUFFER_SIZE) :=
  ⟨by decide, by decide,
    wifi_raw_send_frame_in_bounds [1, 2, 3, 4, 5, 6] ⟨0, 1, 0, 0⟩
      (some [9, 9]) 0 _ (by decide) (by decide)⟩

/- ==================================================
   BridgeReassembler lemmas (main_timer_callback)
   ================================================== -/

/-- Reassembling the big-endian header `(len_bytes[0] << 8) | len_bytes[1]`
    recovers the encoded length. -/
theorem decode_lenHeader (L : Nat) :
    ((L / 256) <<< 8) ||| (L % 256) = L := by
  rw [Nat.shiftLeft_eq, Nat.mul_comm,
    ← Nat.mul_add_lt_is_or
      (lt_of_lt_of_le (Nat.mod_lt L (by norm_num)) (by norm_num)) (L / 256)]
  have h := Nat.div_add_mod L 256
  norm_num
  omega

/-- A tick in WAIT_HEADER with fewer than 2 buffered bytes does nothing. -/
theorem tick_idle (rx : RingState) (h : rx.occ < 2) :
    main_timer_callback BRIDGE_INIT rx = (BRIDGE_INIT, rx, []) := by
  simp only [main_timer_callback, BRIDGE_INIT, uart_rx_available]
  rw [if_pos trivial, if_neg (show ¬ rx.occ ≥ 2 from by omega)]
  dsimp only
  rw [if_neg (show ¬ ((0 : Nat) > 0) from by omega)]

/-- A tick in WAIT_HEADER with a full valid header (and at most one
    packet's worth of bytes) buffered: the header is consumed, all buffered
    payload bytes are accumulated, and the packet is transmitted exactly
    when it is already complete. -/
theorem tick_header (rx : RingState) (b0 b1 : Nat) (rest : List Nat)
    (hwf : rx.wf) (hq : rx.queue = b0 :: b1 :: rest)
    (he1 : (b0 <<< 8) ||| b1 ≠ 0)
    (he2 : (b0 <<< 8) ||| b1 ≤ MAX_PACKET_SIZE)
    (hrest : rest.length ≤ (b0 <<< 8) ||| b1) :
    (main_timer_callback BRIDGE_INIT rx).1 =
      (if rest.length = (b0 <<< 8) ||| b1 then BRIDGE_INIT
       else ⟨(b0 <<< 8) ||| b1, rest.length, rest⟩) ∧
    (main_timer_callback BRIDGE_INIT rx).2.1.queue = [] ∧
    (main_timer_callback BRIDGE_INIT rx).2.1.wf ∧
    (main_timer_callback BRIDGE_INIT rx).2.2 =
      (if rest.length = (b0 <<< 8) ||| b1 then [rest] else []) := by
  have hocc : rx.occ = rest.length + 2 := by
    rw [← rx.queue_length, hq]
    simp
  obtain ⟨hr2val, hr1q, hr1wf, _, _, hr1occ⟩ := uart_read_bytes_spec 2 rx hwf
  rw [hq] at hr2val hr1q
  simp only [List.take_succ_cons, List.take_zero, List.drop_succ_cons,
    List.drop_zero] at hr2val hr1q
  obtain ⟨hs2val, hs2q, hs2wf, _, _, _⟩ :=
    uart_read_bytes_spec rest.length (uart_read_bytes rx 2).1 hr1wf
  rw [hr1q] at hs2val hs2q
  rw [List.take_length] at hs2val
  rw [List.drop_length] at hs2q
  have hmain : main_timer_callback BRIDGE_INIT rx =
      ((if rest.length = (b0 <<< 8) ||| b1 then BRIDGE_INIT
        else ⟨(b0 <<< 8) ||| b1, rest.length, rest⟩),
       (uart_read_bytes (uart_read_bytes rx 2).1 rest.length).1,
       (if rest.length = (b0 <<< 8) ||| b1 then [rest] else [])) := by
    simp only [main_timer_callback, BRIDGE_INIT, uart_rx_available]
    rw [if_pos trivial, if_pos (show rx.occ ≥ 2 from by omega), hr2val]
    simp only [List.getD_cons_zero, List.getD_cons_succ]
    rw [if_neg (show ¬ ((b0 <<< 8) ||| b1 = 0 ∨
        (b0 <<< 8) ||| b1 > MAX_PACKET_SIZE) from by
      push_neg
      exact ⟨he1, he2⟩)]
    try dsimp only
    rw [if_pos (Nat.pos_of_ne_zero he1), Nat.sub_zero]
    rw [show (uart_read_bytes rx 2).1.occ = rest.length from by omega]
    rw [show (if rest.length < (b0 <<< 8) ||| b1 then rest.length
        else (b0 <<< 8) ||| b1) = rest.length from by
      by_cases hlt : rest.length < (b0 <<< 8) ||| b1
      · rw [if_pos hlt]
      · rw [if_neg hlt]
        omega]
    rw [hs2val]
    try dsimp only
    simp only [Nat.zero_add, List.nil_append]
    by_cases hcomp : rest.length = (b0 <<< 8) ||| b1
    · rw [if_pos (show rest.length ≥ (b0 <<< 8) ||| b1 from by omega),
        if_pos hcomp, if_pos hcomp]
    · rw [if_neg (show ¬ rest.length ≥ (b0 <<< 8) ||| b1 from by omega),
        if_neg hcomp, if_neg hcomp]
  rw [hmain]
  exact ⟨rfl, hs2q, hs2wf, rfl⟩

/-- A tick in ACCUMULATE (with at most the missing byte count buffered):
    everything buffered is read into the packet buffer and the packet is
    transmitted exactly when it becomes complete. -/
theorem tick_accum (rx : RingState) (L rec : Nat) (buf : List Nat)
    (hwf : rx.wf) (hL : 0 < L) (hrec : rec < L)
    (havail : rx.occ ≤ L - rec) :
    (main_timer_callback ⟨L, rec, buf⟩ rx).1 =
      (if rx.occ = L - rec then BRIDGE_INIT
       else ⟨L, rec + rx.occ, buf ++ rx.queue⟩) ∧
    (main_timer_callback ⟨L, rec, buf⟩ rx).2.1.queue = [] ∧
    (main_timer_callback ⟨L, rec, buf⟩ rx).2.1.wf ∧
    (main_timer_callback ⟨L, rec, buf⟩ rx).2.2 =
      (if rx.occ = L - rec then [buf ++ rx.queue] else []) := by
  obtain ⟨hrval, hrq, hrwf, _, _, hrocc⟩ :=
    uart_read_bytes_spec rx.occ rx hwf
  rw [List.take_of_length_le (le_of_eq rx.queue_length)] at hrval
  rw [List.drop_eq_nil_of_le (le_of_eq rx.queue_length)] at hrq
  have hmain : main_timer_callback ⟨L, rec, buf⟩ rx =
      ((if rx.occ = L - rec then BRIDGE_INIT
        else ⟨L, rec + rx.occ, buf ++ rx.queue⟩),
       (uart_read_bytes rx rx.occ).1,
       (if rx.occ = L - rec then [buf ++ rx.queue] else [])) := by
    simp only [main_timer_callback, BRIDGE_INIT, uart_rx_available]
    rw [if_neg (show ¬ (BridgeState.mk L rec buf).pkt_expected = 0 from by
      simp only []
      omega)]
    try dsimp only
    rw [if_pos (show L > 0 from hL)]
    rw [show (if rx.occ < L - rec then rx.occ else L - rec) = rx.occ from by
      by_cases hlt : rx.occ < L - rec
      · rw [if_pos hlt]
      · rw [if_neg hlt]
        omega]
    rw [hrval]
    try dsimp only
    have hq : rx.queue.length = rx.occ := rx.queue_length
    by_cases hcomp : rx.occ = L - rec
    · rw [if_pos (show rec + rx.queue.length ≥ L from by omega),
        if_pos hcomp, if_pos hcomp]
    · rw [if_neg (show ¬ rec + rx.queue.length ≥ L from by omega),
        if_neg hcomp, if_neg hcomp]
      rw [hq]
  rw [hmain]
  exact ⟨rfl, hrq, hrwf, rfl⟩

/- ==================================================
   Claim C5: malformed header handling
   ================================================== -/

/-- C5: in WAIT_HEADER, a 2-byte big-endian prefix decoding to 0 or to more
    than `MAX_PACKET_SIZE` is consumed and discarded: no transmit happens,
    no payload bytes are accumulated, the state returns to WAIT_HEADER
    (`pkt_expected = 0`, empty accumulation), and exactly the two prefix
    bytes are removed — the following bytes stay queued to be read as a
    fresh header on the next tick. -/
theorem malformed_header_law (rx : RingState) (b0 b1 : Nat)
    (rest : List Nat) (hwf : rx.wf) (hq : rx.queue = b0 :: b1 :: rest)
    (hbad : (b0 <<< 8) ||| b1 = 0 ∨ (b0 <<< 8) ||| b1 > MAX_PACKET_SIZE) :
    (main_timer_callback BRIDGE_INIT rx).1 = BRIDGE_INIT ∧
    (main_timer_callback BRIDGE_INIT rx).2.2 = [] ∧
    (main_timer_callback BRIDGE_INIT rx).2.1.queue = rest ∧
    (main_timer_callback BRIDGE_INIT rx).2.1.wf := by
  have hocc : rx.occ = rest.length + 2 := by
    rw [← rx.queue_length, hq]
    simp
  obtain ⟨hr2val, hr1q, hr1wf, _, _, _⟩ := uart_read_bytes_spec 2 rx hwf
  rw [hq] at hr2val hr1q
  simp only [List.take_succ_cons, List.take_zero, List.drop_succ_cons,
    List.drop_zero] at hr2val hr1q
  have hmain : main_timer_callback BRIDGE_INIT rx =
      (BRIDGE_INIT, (uart_read_bytes rx 2).1, []) := by
    simp only [main_timer_callback, BRIDGE_INIT, uart_rx_available]
    rw [if_pos trivial, if_pos (show rx.occ ≥ 2 from by omega), hr2val]
    simp only [List.getD_cons_zero, List.getD_cons_succ]
    rw [if_pos hbad]
    try dsimp only
    rw [if_neg (show ¬ ((0 : Nat) > 0) from by omega)]
  rw [hmain]
  exact ⟨rfl, rfl, hr1q, hr1wf⟩

/-- Witness for C5: prefix `0x01 0x01` decodes to 257 > 256 and is
    discarded, leaving the next byte queued. -/
theorem malformed_header_law_witness :
    (uart0_rx_store uart_init [1, 1, 7]).wf ∧
    (uart0_rx_store uart_init [1, 1, 7]).queue = 1 :: 1 :: [7] ∧
    ((1 <<< 8) ||| 1 = 0 ∨ (1 <<< 8) ||| 1 > MAX_PACKET_SIZE) ∧
    ((main_timer_callback BRIDGE_INIT
        (uart0_rx_store uart_init [1, 1, 7])).1 = BRIDGE_INIT ∧
    (main_timer_callback BRIDGE_INIT
        (uart0_rx_store uart_init [1, 1, 7])).2.2 = [] ∧
    (main_timer_callback BRIDGE_INIT
        (uart0_rx_store uart_init [1, 1, 7])).2.1.queue = [7] ∧
    (main_timer_callback BRIDGE_INIT
        (uart0_rx_store uart_init [1, 1, 7])).2.1.wf) :=
  ⟨by decide, by decide, by decide,
    malformed_header_law (uart0_rx_store uart_init [1, 1, 7]) 1 1 [7]
      (by decide) (by decide) (by decide)⟩

/-- Delivering any prefix of a single length-prefixed packet in arbitrary
    chunks, one tick after each chunk, keeps the bridge in a `bridgeInv`
    configuration: the ring is drained whenever at least the header has
    arrived, and the one transmit call happens exactly on the tick where
    the last payload byte arrives. -/
theorem runChunks_inv (L : Nat) (payload : List Nat) (hL1 : 1 ≤ L)
    (hL2 : L ≤ MAX_PACKET_SIZE) (hlen : payload.length = L)
    (chunks : List (List Nat)) :
    ∀ (d : Nat) (b : BridgeState) (rx : RingState), rx.wf → d ≤ 2 + L →
    (∃ q, chunks.flatten ++ q = (lenHeader L ++ payload).drop d) →
    bridgeInv L payload d b rx.queue →
    bridgeInv L payload (d + chunks.flatten.length)
      (runChunks b rx chunks).1 (runChunks b rx chunks).2.1.queue ∧
    (runChunks b rx chunks).2.1.wf ∧
    (runChunks b rx chunks).2.2 =
      (if d < 2 + L ∧ 2 + L ≤ d + chunks.flatten.length then [payload]
       else []) := by
  have hL2' : L ≤ 256 := hL2
  have hence : lenHeader L ++ payload = L / 256 :: L % 256 :: payload := rfl
  have henclen : (lenHeader L ++ payload).length = 2 + L := by
    rw [List.length_append, hlen]
    rfl
  induction chunks with
  | nil =>
    intro d b rx hwf hd hjoin hinv
    simp only [List.flatten_nil, List.length_nil, Nat.add_zero]
    refine ⟨hinv, hwf, ?_⟩
    rw [if_neg (by omega)]
    rfl
  | cons c rest ih =>
    intro d b rx hwf hd hjoin hinv
    obtain ⟨q, hjq⟩ := hjoin
    rw [List.flatten_cons, List.append_assoc] at hjq
    have hlenq := congrArg List.length hjq
    rw [List.length_append, List.length_append, List.length_drop,
      henclen] at hlenq
    have hd' : d + c.length ≤ 2 + L := by omega
    have hc : c = ((lenHeader L ++ payload).drop d).take c.length := by
      rw [← hjq, List.take_left]
    have hrestj : ∃ q', rest.flatten ++ q' =
        (lenHeader L ++ payload).drop (d + c.length) := by
      refine ⟨q, ?_⟩
      rw [← List.drop_drop, ← hjq, List.drop_left]
    have hidx : d + (List.flatten (c :: rest)).length =
        (d + c.length) + rest.flatten.length := by
      rw [List.flatten_cons, List.length_append]
      omega
    rw [hidx]
    rcases hinv with ⟨hdlt, hb, hqeq⟩ | ⟨hge2, hdlt, hb, hqeq⟩ |
      ⟨hdeq, hb, hqeq⟩
    · -- still waiting for the header
      subst hb
      have hocc1 : rx.occ = d := by
        have h := rx.queue_length
        rw [hqeq, List.length_take, henclen] at h
        omega
      obtain ⟨hsq, hsocc, hswf, _, _⟩ :=
        uart0_rx_store_spec c rx hwf (by omega)
      have hcomb : (lenHeader L ++ payload).take d ++ c
          = (lenHeader L ++ payload).take (d + c.length) := by
        rw [List.take_add, ← hc]
      have hq1 : (uart0_rx_store rx c).queue
          = (lenHeader L ++ payload).take (d + c.length) := by
        rw [hsq, hqeq, hcomb]
      have hocc1' : (uart0_rx_store rx c).occ = d + c.length := by
        rw [hsocc, hocc1]
      by_cases hsmall : d + c.length < 2
      · -- not enough for the header yet: the tick does nothing
        have htick := tick_idle (uart0_rx_store rx c) (by omega)
        obtain ⟨ih1, ih2, ih3⟩ := ih (d + c.length) BRIDGE_INIT
          (uart0_rx_store rx c) hswf hd' hrestj
          (Or.inl ⟨hsmall, rfl, hq1⟩)
        simp only [runChunks]
        rw [htick]
        try dsimp only
        refine ⟨ih1, ih2, ?_⟩
        simp only [List.nil_append]
        rw [ih3]
        by_cases hfin : 2 + L ≤ d + c.length + rest.flatten.length
        · rw [if_pos ⟨by omega, hfin⟩, if_pos ⟨by omega, by omega⟩]
        · rw [if_neg (by omega), if_neg (by omega)]
      · -- the header is now complete: this tick consumes it
        obtain ⟨k, hk⟩ : ∃ k, d + c.length = k + 2 :=
          ⟨d + c.length - 2, by omega⟩
        have hkL : k ≤ L := by omega
        have hqcons : (uart0_rx_store rx c).queue
            = L / 256 :: L % 256 :: payload.take k := by
          rw [hq1, hk, hence, show k + 2 = (k + 1) + 1 from rfl,
            List.take_succ_cons, List.take_succ_cons]
        have hdec := decode_lenHeader L
        have hlenk : (payload.take k).length = k := by
          rw [List.length_take]
          omega
        obtain ⟨ht1, ht2, ht3, ht4⟩ := tick_header (uart0_rx_store rx c)
          (L / 256) (L % 256) (payload.take k) hswf hqcons
          (by rw [hdec]; omega) (by rw [hdec]; exact hL2)
          (by rw [hdec, hlenk]; exact hkL)
        rw [hdec, hlenk] at ht1 ht4
        by_cases hcomp : k = L
        · -- the whole packet arrived with the header: transmit now
          rw [if_pos hcomp] at ht1 ht4
          have hpl : payload.take k = payload := by
            rw [show k = payload.length from by omega, List.take_length]
          rw [hpl] at ht4
          simp only [runChunks]
          rw [ht1, ht4]
          obtain ⟨ih1, ih2, ih3⟩ := ih (d + c.length) BRIDGE_INIT
            (main_timer_callback BRIDGE_INIT (uart0_rx_store rx c)).2.1
            ht3 hd' hrestj (Or.inr (Or.inr ⟨by omega, rfl, ht2⟩))
          refine ⟨ih1, ih2, ?_⟩
          rw [ih3, if_neg (by omega), if_pos ⟨by omega, by omega⟩]
          simp
        · -- header consumed, packet incomplete: ACCUMULATE
          rw [if_neg hcomp] at ht1 ht4
          simp only [runChunks]
          rw [ht1, ht4]
          obtain ⟨ih1, ih2, ih3⟩ := ih (d + c.length)
            ⟨L, k, payload.take k⟩
            (main_timer_callback BRIDGE_INIT (uart0_rx_store rx c)).2.1
            ht3 hd' hrestj
            (Or.inr (Or.inl ⟨by omega, by omega,
              by rw [show d + c.length - 2 = k from by omega], ht2⟩))
          refine ⟨ih1, ih2, ?_⟩
          simp only [List.nil_append]
          rw [ih3]
          by_cases hfin : 2 + L ≤ d + c.length + rest.flatten.length
          · rw [if_pos ⟨by omega, hfin⟩, if_pos ⟨by omega, by omega⟩]
          · rw [if_neg (by omega), if_neg (by omega)]
    · -- accumulating payload bytes
      subst hb
      have hocc0 : rx.occ = 0 := by
        have h := rx.queue_length
        rw [hqeq] at h
        simpa using h.symm
      obtain ⟨hsq, hsocc, hswf, _, _⟩ :=
        uart0_rx_store_spec c rx hwf (by omega)
      have hq1 : (uart0_rx_store rx c).queue = c := by
        rw [hsq, hqeq, List.nil_append]
      have hocc1 : (uart0_rx_store rx c).occ = c.length := by
        rw [hsocc, hocc0, Nat.zero_add]
      have hdropd : (lenHeader L ++ payload).drop d
          = payload.drop (d - 2) := by
        obtain ⟨m, hm⟩ : ∃ m, d = m + 2 := ⟨d - 2, by omega⟩
        rw [hm, hence, show m + 2 = (m + 1) + 1 from rfl,
          List.drop_succ_cons, List.drop_succ_cons]
        congr 1
      obtain ⟨ht1, ht2, ht3, ht4⟩ := tick_accum (uart0_rx_store rx c) L
        (d - 2) (payload.take (d - 2)) hswf (by omega) (by omega)
        (by rw [hocc1]; omega)
      rw [hocc1, hq1] at ht1 ht4
      have hc' : c = (payload.drop (d - 2)).take c.length := by
        conv_lhs => rw [hc]
        rw [hdropd]
      have hbufq : payload.take (d - 2) ++ c
          = payload.take (d - 2 + c.length) := by
        rw [List.take_add, ← hc']
      rw [hbufq] at ht1 ht4
      by_cases hcomp : c.length = L - (d - 2)
      · -- this chunk completes the packet: transmit now
        rw [if_pos hcomp] at ht1 ht4
        have hpl : payload.take (d - 2 + c.length) = payload := by
          rw [show d - 2 + c.length = payload.length from by omega,
            List.take_length]
        rw [hpl] at ht4
        simp only [runChunks]
        rw [ht1, ht4]
        obtain ⟨ih1, ih2, ih3⟩ := ih (d + c.length) BRIDGE_INIT
          (main_timer_callback ⟨L, d - 2, payload.take (d - 2)⟩
            (uart0_rx_store rx c)).2.1
          ht3 hd' hrestj (Or.inr (Or.inr ⟨by omega, rfl, ht2⟩))
        refine ⟨ih1, ih2, ?_⟩
        rw [ih3, if_neg (by omega), if_pos ⟨by omega, by omega⟩]
        simp
      · -- still incomplete: stay in ACCUMULATE
        rw [if_neg hcomp] at ht1 ht4
        simp only [runChunks]
        rw [ht1, ht4]
        obtain ⟨ih1, ih2, ih3⟩ := ih (d + c.length)
          ⟨L, d - 2 + c.length, payload.take (d - 2 + c.length)⟩
          (main_timer_callback ⟨L, d - 2, payload.take (d - 2)⟩
            (uart0_rx_store rx c)).2.1
          ht3 hd' hrestj
          (Or.inr (Or.inl ⟨by omega, by omega,
            by rw [show d + c.length - 2 = d - 2 + c.length from by omega],
            ht2⟩))
        refine ⟨ih1, ih2, ?_⟩
        simp only [List.nil_append]
        rw [ih3]
        by_cases hfin : 2 + L ≤ d + c.length + rest.flatten.length
        · rw [if_pos ⟨by omega, hfin⟩, if_pos ⟨by omega, by omega⟩]
        · rw [if_neg (by omega), if_neg (by omega)]
    · -- the packet already went out: only empty chunks can remain
      subst hb
      have hdrop0 : (lenHeader L ++ payload).drop d = [] := by
        apply List.drop_eq_nil_of_le
        rw [henclen]
        omega
      rw [hdrop0] at hjq
      obtain ⟨hc00, _⟩ := List.append_eq_nil.mp hjq
      subst hc00
      simp only [List.length_nil, Nat.add_zero]
      have hocc0 : rx.occ = 0 := by
        have h := rx.queue_length
        rw [hqeq] at h
        simpa using h.symm
      have htick := tick_idle rx (by omega)
      simp only [runChunks]
      rw [show uart0_rx_store rx [] = rx from rfl, htick]
      try dsimp only
      obtain ⟨ih1, ih2, ih3⟩ := ih d BRIDGE_INIT rx hwf hd
        (by simpa using hrestj)
        (Or.inr (Or.inr ⟨hdeq, rfl, hqeq⟩))
      refine ⟨ih1, ih2, ?_⟩
      simp only [List.nil_append]
      rw [ih3]

/- ==================================================
   Claim C1: one packet in, exactly one transmit call out
   ================================================== -/

/-- C1: for every payload length `1 ≤ L ≤ MAX_PACKET_SIZE`, delivering the
    2-byte big-endian prefix of `L` followed by the `L` payload bytes into
    the UART RX ring — split across ticks in any way — and ticking until
    the ring is drained produces exactly one `wifi_raw_send` call whose
    argument is exactly the payload, unmodified and in order; every run
    over a chunk prefix that has not yet delivered all `2 + L` bytes
    produces zero transmit calls. -/
theorem bridge_delivers_exactly_once (L : Nat) (payload : List Nat)
    (chunks : List (List Nat)) (hL1 : 1 ≤ L) (hL2 : L ≤ MAX_PACKET_SIZE)
    (hlen : payload.length = L)
    (hjoin : chunks.flatten = lenHeader L ++ payload) :
    (runChunks BRIDGE_INIT uart_init chunks).2.2 = [payload] ∧
    (runChunks BRIDGE_INIT uart_init chunks).1 = BRIDGE_INIT ∧
    (runChunks BRIDGE_INIT uart_init chunks).2.1.queue = [] ∧
    (∀ pre post, chunks = pre ++ post → pre.flatten.length < 2 + L →
      (runChunks BRIDGE_INIT uart_init pre).2.2 = []) := by
  have henclen : (lenHeader L ++ payload).length = 2 + L := by
    rw [List.length_append, hlen]
    rfl
  have hjlen : chunks.flatten.length = 2 + L := by
    rw [hjoin, henclen]
  have hq0 : uart_init.queue = (lenHeader L ++ payload).take 0 := by
    rw [List.take_zero]
    rfl
  obtain ⟨h1, h2, h3⟩ := runChunks_inv L payload hL1 hL2 hlen chunks 0
    BRIDGE_INIT uart_init (by decide) (by omega)
    ⟨[], by rw [List.append_nil, List.drop_zero]; exact hjoin⟩
    (Or.inl ⟨by omega, rfl, hq0⟩)
  rw [hjlen] at h1 h3
  simp only [bridgeInv] at h1
  refine ⟨?_, ?_, ?_, ?_⟩
  · rw [h3, if_pos ⟨by omega, by omega⟩]
  · rcases h1 with ⟨hlt, _, _⟩ | ⟨_, hlt, _, _⟩ | ⟨_, hb, _⟩
    · omega
    · omega
    · exact hb
  · rcases h1 with ⟨hlt, _, _⟩ | ⟨_, hlt, _, _⟩ | ⟨_, _, hq⟩
    · omega
    · omega
    · exact hq
  · intro pre post hsplit hprelen
    have hprej : ∃ q, pre.flatten ++ q = (lenHeader L ++ payload).drop 0 := by
      refine ⟨post.flatten, ?_⟩
      rw [List.drop_zero, ← hjoin, hsplit, List.flatten_append]
    obtain ⟨_, _, p3⟩ := runChunks_inv L payload hL1 hL2 hlen pre 0
      BRIDGE_INIT uart_init (by decide) (by omega) hprej
      (Or.inl ⟨by omega, rfl, hq0⟩)
    rw [p3, if_neg (by omega)]

/-- Witness for C1: the 2-byte packet `0x11 0x22` delivered as header then
    payload across two ticks (scenario B). -/
theorem bridge_delivers_exactly_once_witness :
    1 ≤ 2 ∧ 2 ≤ MAX_PACKET_SIZE ∧
    ([0x11, 0x22] : List Nat).length = 2 ∧
    ([[0, 2], [0x11, 0x22]] : List (List Nat)).flatten =
      lenHeader 2 ++ [0x11, 0x22] ∧
    ((runChunks BRIDGE_INIT uart_init [[0, 2], [0x11, 0x22]]).2.2 =
      [[0x11, 0x22]] ∧
    (runChunks BRIDGE_INIT uart_init [[0, 2], [0x11, 0x22]]).1 =
      BRIDGE_INIT ∧
    (runChunks BRIDGE_INIT uart_init [[0, 2], [0x11, 0x22]]).2.1.queue =
      [] ∧
    (∀ pre post,
      ([[0, 2], [0x11, 0x22]] : List (List Nat)) = pre ++ post →
      pre.flatten.length < 2 + 2 →
      (runChunks BRIDGE_INIT uart_init pre).2.2 = [])) :=
  ⟨by decide, by decide, by decide, by decide,
    bridge_delivers_exactly_once 2 [0x11, 0x22] [[0, 2], [0x11, 0x22]]
      (by decide) (by decide) (by decide) (by decide)⟩

end EspRadio
